import Mathlib

/-!
Verification development for the pyethereum block / account-state layer
(`pyethereum/blocks.py`).  The account model, indexed accessor protocol,
snapshot/revert, block construction/validation, serialization and the
genesis constructor are embedded shallowly; the external collaborators
(digest, canonical encoding, authenticated store, transactions) are
modelled from the specification that treats them as opaque.
-/

namespace Pyethereum

/-- Byte strings are modelled as lists of naturals, one entry per byte. -/
abbrev Bytes := List Nat

/-- Modelled from the spec: `utils.big_endian_to_int`; big-endian decoding,
an all-zero/empty byte string decodes to the integer 0. -/
def decode_int (b : Bytes) : Nat := b.foldl (fun acc x => acc * 256 + x) 0

/-- Fuel-indexed big-endian encoding; the fuel only bounds the recursion
depth and `encode_int` always supplies enough of it. -/
def encIntAux : Nat → Nat → Bytes
  | _, 0 => []
  | 0, _ + 1 => []
  | f + 1, n + 1 => encIntAux f ((n + 1) / 256) ++ [(n + 1) % 256]

/-- Modelled from the spec: `utils.int_to_big_endian`; canonical
minimal-width big-endian encoding, the integer 0 encodes to the empty
byte string (no leading zero bytes). -/
def encode_int (n : Nat) : Bytes := encIntAux n n

theorem encIntAux_fuel : ∀ f f2 n, n ≤ f → n ≤ f2 →
    encIntAux f n = encIntAux f2 n := by
  intro f
  induction f with
  | zero =>
    intro f2 n h1 h2
    have hn : n = 0 := Nat.le_zero.mp h1
    subst hn
    cases f2 <;> rfl
  | succ f ih =>
    intro f2 n h1 h2
    cases n with
    | zero => cases f2 <;> rfl
    | succ m =>
      cases f2 with
      | zero => exact absurd h2 (by omega)
      | succ f2 =>
        show encIntAux f ((m + 1) / 256) ++ _
          = encIntAux f2 ((m + 1) / 256) ++ _
        have hd : (m + 1) / 256 < m + 1 :=
          Nat.div_lt_self (by omega) (by norm_num)
        rw [ih f2 ((m + 1) / 256) (by omega) (by omega)]

/-- The defining recurrence of the minimal-width big-endian encoding. -/
theorem encode_int_eq {n : Nat} (h : n ≠ 0) :
    encode_int n = encode_int (n / 256) ++ [n % 256] := by
  cases n with
  | zero => exact absurd rfl h
  | succ m =>
    show encIntAux m ((m + 1) / 256) ++ [(m + 1) % 256]
      = encIntAux ((m + 1) / 256) ((m + 1) / 256) ++ [(m + 1) % 256]
    have hd : (m + 1) / 256 < m + 1 :=
      Nat.div_lt_self (by omega) (by norm_num)
    rw [encIntAux_fuel m ((m + 1) / 256) ((m + 1) / 256) (by omega)
      (Nat.le_refl _)]

theorem decode_int_append_one (a : Bytes) (x : Nat) :
    decode_int (a ++ [x]) = decode_int a * 256 + x := by
  simp [decode_int, List.foldl_append]

theorem decode_encode_int (n : Nat) : decode_int (encode_int n) = n := by
  induction n using Nat.strong_induction_on with
  | _ n ih =>
    by_cases h : n = 0
    · subst h; rfl
    · rw [encode_int_eq h, decode_int_append_one,
        ih (n / 256) (Nat.div_lt_self (Nat.pos_of_ne_zero h) (by norm_num))]
      omega

/-- Hexadecimal digit as a lowercase ASCII character code. -/
def hexChar (n : Nat) : Nat := if n < 10 then 48 + n else 87 + n

/-- Modelled from the spec: the text rendering of a byte string as
lowercase hexadecimal character codes (python `.encode('hex')`). -/
def hexEncode (b : Bytes) : Bytes :=
  b.foldr (fun x acc => hexChar (x / 16) :: hexChar (x % 16) :: acc) []

/-- Value of one hexadecimal character code, if it is a hex digit. -/
def hexDigit (c : Nat) : Option Nat :=
  if 48 ≤ c ∧ c ≤ 57 then some (c - 48)
  else if 97 ≤ c ∧ c ≤ 102 then some (c - 87)
  else if 65 ≤ c ∧ c ≤ 70 then some (c - 55)
  else none

/-- Modelled from the spec: parsing a hexadecimal text string back into
bytes (python `.decode('hex')`); fails on odd length or a non-hex digit. -/
def hexDecode : Bytes → Option Bytes
  | [] => some []
  | c1 :: c2 :: rest => do
      let h ← hexDigit c1
      let l ← hexDigit c2
      let r ← hexDecode rest
      some ((h * 16 + l) :: r)
  | [_] => none

/-- Address normalization: the source length-sniffs `len(address) == 40`
and hex-decodes the text form before any store access.  For a 40-byte
input that is not valid hex the source raises; that branch is left as the
identity here and is unreachable for well-formed addresses. -/
def normAddr (a : Bytes) : Bytes :=
  if a.length = 40 then (hexDecode a).getD a else a

/-- Modelled from the spec: the digest collaborator is an opaque
deterministic hash treated as collision-free; it is idealized here as an
injective tagging, so distinct preimages have distinct digests and no
digest is the blank (empty) byte string. -/
def sha3 (b : Bytes) : Bytes := 1 :: b

theorem sha3_injective : Function.Injective sha3 := by
  intro a b h
  simpa [sha3] using h

theorem sha3_ne_nil (b : Bytes) : sha3 b ≠ [] := by simp [sha3]

/-! ### A self-delimiting injective encoding used for store-node digests -/

/-- Length-prefixed self-delimiting encoding of one byte string. -/
def encB (b : Bytes) : Bytes := List.replicate b.length 1 ++ 0 :: b

/-- Concatenation of self-delimiting encodings of a list of byte strings. -/
def encCat (l : List Bytes) : Bytes := l.foldr (fun b acc => encB b ++ acc) []

/-- Decoder witnessing that `encB` is prefix-free. -/
def splitCounted : Nat → Bytes → Option (Bytes × Bytes)
  | n, 0 :: rest => if n ≤ rest.length then some (rest.take n, rest.drop n) else none
  | n, 1 :: rest => splitCounted (n + 1) rest
  | _, _ => none

theorem splitCounted_replicate (m : Nat) : ∀ (n : Nat) (rest : Bytes),
    splitCounted n (List.replicate m 1 ++ rest) = splitCounted (n + m) rest := by
  induction m with
  | zero => intro n rest; simp
  | succ k ih =>
    intro n rest
    rw [List.replicate_succ, List.cons_append]
    show splitCounted (n + 1) _ = _
    rw [ih (n + 1) rest]
    ring_nf

theorem splitCounted_encB (b t : Bytes) :
    splitCounted 0 (encB b ++ t) = some (b, t) := by
  rw [encB, List.append_assoc, splitCounted_replicate, Nat.zero_add,
    List.cons_append]
  show (if b.length ≤ (b ++ t).length then
      some ((b ++ t).take b.length, (b ++ t).drop b.length) else none) = _
  rw [if_pos (by simp), List.take_left, List.drop_left]

theorem encB_append_inj {b1 b2 t1 t2 : Bytes}
    (h : encB b1 ++ t1 = encB b2 ++ t2) : b1 = b2 ∧ t1 = t2 := by
  have h1 := splitCounted_encB b1 t1
  have h2 := splitCounted_encB b2 t2
  rw [h, h2] at h1
  exact ⟨((Prod.mk.injEq _ _ _ _).mp (Option.some.inj h1.symm)).1,
    ((Prod.mk.injEq _ _ _ _).mp (Option.some.inj h1.symm)).2⟩

theorem encB_ne_nil (b : Bytes) : encB b ≠ [] := by
  simp [encB]

theorem encB_inj {b1 b2 : Bytes} (h : encB b1 = encB b2) : b1 = b2 := by
  have h2 : encB b1 ++ [] = encB b2 ++ [] := by simpa using h
  exact (encB_append_inj h2).1

theorem encCat_inj : ∀ {l1 l2 : List Bytes}, encCat l1 = encCat l2 → l1 = l2 := by
  intro l1
  induction l1 with
  | nil =>
    intro l2 h
    cases l2 with
    | nil => rfl
    | cons x xs =>
      exfalso
      have : encB x ++ encCat xs = [] := by simpa [encCat] using h.symm
      rcases List.append_eq_nil.mp this with ⟨hx, _⟩
      exact encB_ne_nil x hx
  | cons x xs ih =>
    intro l2 h
    cases l2 with
    | nil =>
      exfalso
      have : encB x ++ encCat xs = [] := by simpa [encCat] using h
      rcases List.append_eq_nil.mp this with ⟨hx, _⟩
      exact encB_ne_nil x hx
    | cons y ys =>
      have h2 : encB x ++ encCat xs = encB y ++ encCat ys := by
        simpa [encCat] using h
      rcases encB_append_inj h2 with ⟨hxy, htail⟩
      rw [hxy, ih htail]

/-! ### Store nodes and their digests -/

/-- Serialization of an account record (a list of four byte fields). -/
def encAcct (fields : List Bytes) : Bytes := encCat fields

/-- Serialization of a world-state node: an association of addresses to
account records. -/
def encStateMap (m : List (Bytes × List Bytes)) : Bytes :=
  encCat (m.map (fun p => encB p.1 ++ encAcct p.2))

/-- Serialization of a storage sub-trie node: an association of storage
keys to value bytes. -/
def encStorMap (m : List (Bytes × Bytes)) : Bytes :=
  encCat (m.map (fun p => encB p.1 ++ encB p.2))

/-- The blank node marker of the trie collaborator (`trie.BLANK_NODE`). -/
def BLANK_NODE : Bytes := []

/-- Modelled from the spec: the root digest of an authenticated store
commits to its entire contents; an empty trie has the blank root. -/
def rootOfState (m : List (Bytes × List Bytes)) : Bytes :=
  if m.isEmpty then [] else sha3 (encStateMap m)

/-- Root digest of a storage sub-trie; an empty sub-trie has the blank root. -/
def rootOfStor (m : List (Bytes × Bytes)) : Bytes :=
  if m.isEmpty then [] else sha3 (encStorMap m)

theorem encStateMap_inj {m1 m2 : List (Bytes × List Bytes)}
    (h : encStateMap m1 = encStateMap m2) : m1 = m2 := by
  have hmap := encCat_inj h
  have hf : Function.Injective
      (fun p : Bytes × List Bytes => encB p.1 ++ encAcct p.2) := by
    intro p q hpq
    rcases encB_append_inj hpq with ⟨h1, h2⟩
    exact Prod.ext h1 (encCat_inj h2)
  exact List.map_injective_iff.mpr hf hmap

theorem encStorMap_inj {m1 m2 : List (Bytes × Bytes)}
    (h : encStorMap m1 = encStorMap m2) : m1 = m2 := by
  have hmap := encCat_inj h
  have hf : Function.Injective
      (fun p : Bytes × Bytes => encB p.1 ++ encB p.2) := by
    intro p q hpq
    rcases encB_append_inj hpq with ⟨h1, h2⟩
    exact Prod.ext h1 (encB_inj h2)
  exact List.map_injective_iff.mpr hf hmap

theorem rootOfState_inj {m1 m2 : List (Bytes × List Bytes)}
    (h1 : m1 ≠ []) (h2 : m2 ≠ [])
    (h : rootOfState m1 = rootOfState m2) : m1 = m2 := by
  rw [rootOfState, rootOfState, if_neg (by simpa using h1),
    if_neg (by simpa using h2)] at h
  exact encStateMap_inj (sha3_injective h)

theorem rootOfStor_inj {m1 m2 : List (Bytes × Bytes)}
    (h1 : m1 ≠ []) (h2 : m2 ≠ [])
    (h : rootOfStor m1 = rootOfStor m2) : m1 = m2 := by
  rw [rootOfStor, rootOfStor, if_neg (by simpa using h1),
    if_neg (by simpa using h2)] at h
  exact encStorMap_inj (sha3_injective h)

theorem rootOfState_ne_nil {m : List (Bytes × List Bytes)} (h : m ≠ []) :
    rootOfState m ≠ [] := by
  rw [rootOfState, if_neg (by simpa using h)]
  exact sha3_ne_nil _

theorem rootOfStor_ne_nil {m : List (Bytes × Bytes)} (h : m ≠ []) :
    rootOfStor m ≠ [] := by
  rw [rootOfStor, if_neg (by simpa using h)]
  exact sha3_ne_nil _

/-! ### Association-list maps (python dict semantics of the trie contents) -/

/-- Lookup in an association list keyed by byte strings. -/
def alGet {α : Type} : List (Bytes × α) → Bytes → Option α
  | [], _ => none
  | p :: rest, k => if p.1 = k then some p.2 else alGet rest k

/-- Removal of a key (python trie `delete`). -/
def alErase {α : Type} (l : List (Bytes × α)) (k : Bytes) : List (Bytes × α) :=
  l.filter (fun p => decide (p.1 ≠ k))

/-- Insert-or-replace of a key (python trie `update`). -/
def alSet {α : Type} (l : List (Bytes × α)) (k : Bytes) (v : α) :
    List (Bytes × α) :=
  (k, v) :: alErase l k

theorem alGet_erase {α : Type} (l : List (Bytes × α)) (k k2 : Bytes) :
    alGet (alErase l k) k2 = if k2 = k then none else alGet l k2 := by
  induction l with
  | nil => simp [alErase, alGet]
  | cons p rest ih =>
    rw [alErase, List.filter_cons]
    by_cases hp : p.1 = k
    · rw [if_neg (by simp [hp])]
      rw [show List.filter (fun q => decide (q.1 ≠ k)) rest = alErase rest k
        from rfl, ih]
      by_cases hk : k2 = k
      · simp [hk]
      · rw [if_neg hk, if_neg hk, alGet,
          if_neg (by rw [hp]; exact fun hc => hk hc.symm)]
    · rw [if_pos (by simp [hp])]
      show alGet (p :: alErase rest k) k2 = _
      rw [alGet]
      by_cases hk2 : p.1 = k2
      · rw [if_pos hk2, if_neg (fun hc => hp (hk2.trans hc)), alGet,
          if_pos hk2]
      · rw [if_neg hk2, ih]
        by_cases hk : k2 = k
        · simp [hk]
        · rw [if_neg hk, if_neg hk, alGet, if_neg hk2]

theorem alGet_set {α : Type} (l : List (Bytes × α)) (k k2 : Bytes) (v : α) :
    alGet (alSet l k v) k2 = if k2 = k then some v else alGet l k2 := by
  by_cases hk : k2 = k
  · simp [alSet, alGet, hk]
  · rw [alSet, alGet, if_neg (fun hc => hk hc.symm), alGet_erase, if_neg hk,
      if_neg hk]

theorem alSet_ne_nil {α : Type} (l : List (Bytes × α)) (k : Bytes) (v : α) :
    alSet l k v ≠ [] := by simp [alSet]

theorem alGet_mem {α : Type} {l : List (Bytes × α)} {k : Bytes} {v : α}
    (h : alGet l k = some v) : (k, v) ∈ l := by
  induction l with
  | nil => simp [alGet] at h
  | cons p rest ih =>
    rw [alGet] at h
    by_cases hp : p.1 = k
    · rw [if_pos hp] at h
      have hpv : p = (k, v) := Prod.ext_iff.mpr ⟨hp, Option.some.inj h⟩
      rw [← hpv]
      exact List.mem_cons_self p rest
    · rw [if_neg hp] at h
      exact List.mem_cons_of_mem _ (ih h)

/-! ### The authenticated store -/

/-- Modelled from the spec: the Authenticated Store collaborator — a
versioned content-addressed store holding world-state nodes, storage
sub-trie nodes and code blobs, each keyed by the digest of its content. -/
structure DB where
  stateNodes : List (Bytes × List (Bytes × List Bytes))
  storNodes : List (Bytes × List (Bytes × Bytes))
  blobs : List (Bytes × Bytes)

/-- Modelled from the spec: store writes are append-only and write-once;
a write whose key is already present is a no-op, because under a
collision-free digest it can only carry content identical to what is
already stored. -/
def DB.putState (d : DB) (k : Bytes) (m : List (Bytes × List Bytes)) : DB :=
  if (alGet d.stateNodes k).isSome then d
  else { d with stateNodes := (k, m) :: d.stateNodes }

/-- Write-once insertion of a storage sub-trie node. -/
def DB.putStor (d : DB) (k : Bytes) (m : List (Bytes × Bytes)) : DB :=
  if (alGet d.storNodes k).isSome then d
  else { d with storNodes := (k, m) :: d.storNodes }

/-- Write-once insertion of a content-addressed code blob (`db.put`). -/
def DB.putBlob (d : DB) (k : Bytes) (b : Bytes) : DB :=
  if (alGet d.blobs k).isSome then d
  else { d with blobs := (k, b) :: d.blobs }

/-- Modelled from the spec: `db.commit` flushes the store to persistence;
it has no observable effect on the in-memory contents. -/
def DB.commit (d : DB) : DB := d

/-- Well-formedness of the store: every node or blob is keyed by the
digest of its own content, stored trie nodes are non-empty (the empty
trie is represented by the blank root, never stored), and every stored
account record has the fixed four-field shape. -/
def DB.wfb (d : DB) : Bool :=
  d.stateNodes.all (fun p =>
    decide (p.1 = rootOfState p.2) && !p.2.isEmpty
      && p.2.all (fun q => decide (q.2.length = 4))) &&
  d.storNodes.all (fun p => decide (p.1 = rootOfStor p.2) && !p.2.isEmpty) &&
  d.blobs.all (fun p => decide (p.1 = sha3 p.2))

/-- The world-state map committed to by a root digest: the blank root is
the empty state, otherwise the stored node at that digest. -/
def stateMapAt (d : DB) (r : Bytes) : List (Bytes × List Bytes) :=
  if r = [] then [] else (alGet d.stateNodes r).getD []

/-- The storage sub-trie map committed to by a root digest. -/
def storMapAt (d : DB) (r : Bytes) : List (Bytes × Bytes) :=
  if r = [] then [] else (alGet d.storNodes r).getD []

/-- A trie handle: the shared store together with a root digest
(`trie.Trie(STATEDB_DIR, root)`). -/
structure Trie where
  db : DB
  root : Bytes

/-- `Trie.get` on the world-state trie (`self.state.get(address)`). -/
def Trie.getAcct (t : Trie) (k : Bytes) : Option (List Bytes) :=
  alGet (stateMapAt t.db t.root) k

/-- `Trie.update` on the world-state trie: rebinds one address, stores
the resulting node under its digest, and moves the root to it. -/
def Trie.updateAcct (t : Trie) (k : Bytes) (v : List Bytes) : Trie :=
  let m := alSet (stateMapAt t.db t.root) k v
  { db := t.db.putState (rootOfState m) m, root := rootOfState m }

/-- `Trie.get` on a storage sub-trie. -/
def Trie.getStor (t : Trie) (k : Bytes) : Option Bytes :=
  alGet (storMapAt t.db t.root) k

/-- `Trie.update` on a storage sub-trie. -/
def Trie.updateStor (t : Trie) (k : Bytes) (v : Bytes) : Trie :=
  let m := alSet (storMapAt t.db t.root) k v
  { db := t.db.putStor (rootOfStor m) m, root := rootOfStor m }

/-- `Trie.delete` on a storage sub-trie: removes one key; if the result
is empty the root becomes blank and nothing is stored. -/
def Trie.deleteStor (t : Trie) (k : Bytes) : Trie :=
  let m := alErase (storMapAt t.db t.root) k
  if m.isEmpty then { db := t.db, root := [] }
  else { db := t.db.putStor (rootOfStor m) m, root := rootOfStor m }

/-! ### Canonical nested-structure encoding and transactions -/

/-- A nested scalar/sequence structure, the domain of the canonical
encoding collaborator (RLP-style); sequences are kept in right-nested
cons form and `Item.list` embeds a Lean list. -/
inductive Item where
  | str : Bytes → Item
  | nilList : Item
  | consList : Item → Item → Item
deriving DecidableEq

/-- The canonical sequence form of a list of structures. -/
def Item.list : List Item → Item
  | [] => Item.nilList
  | i :: rest => Item.consList i (Item.list rest)

/-- Modelled from the spec: `rlp.encode`, an opaque deterministic
injective canonical encoding of nested byte-string/list structures;
idealized here as a tagged self-delimiting encoding. -/
def rlpEncode : Item → Bytes
  | Item.str s => 0 :: encB s
  | Item.nilList => [1]
  | Item.consList h t => 2 :: (encB (rlpEncode h) ++ rlpEncode t)

/-- The sequence read back as a Lean list, when the structure is one. -/
def itemToList : Item → Option (List Item)
  | Item.nilList => some []
  | Item.consList h t => (itemToList t).map (fun l => h :: l)
  | Item.str _ => none

/-- Modelled from the spec: `utils.recursive_int_to_big_endian` converts
every integer inside a nested structure to canonical big-endian bytes;
the raw transaction lists handled here already consist of byte strings,
so it is the canonical embedding into the nested-structure type. -/
def txListItem (txl : List (List Bytes)) : Item :=
  Item.list (txl.map (fun t => Item.list (t.map Item.str)))

/-- Modelled from the spec: the Transaction collaborator is out of scope;
a transaction is represented by its decoded field list
(`Transaction(*x)` keeps exactly the fields `x`). -/
structure Tx where
  fields : List Bytes
deriving DecidableEq

/-- Modelled from the spec: a transaction's canonical serialized form,
consumed only for root-hash computation; constructor and serialization
are inverse, so it is the field list as a nested structure. -/
def Tx.serializeItem (t : Tx) : Item := Item.list (t.fields.map Item.str)

/-! ### Header values and the Block -/

/-- A header field value: raw bytes from the wire, or an integer after
`cast_block_header_from_rlp_decoded` (python stores either in the same
positional slot). -/
inductive HVal where
  | bytes : Bytes → HVal
  | int : Nat → HVal
deriving DecidableEq

/-- The byte-string content of a header slot; integer content never
reaches the byte-typed uses in the source paths modelled here. -/
def HVal.toBytesD : HVal → Bytes
  | HVal.bytes b => b
  | HVal.int _ => []

/-- The integer content of a header slot, if it is an integer
(`encode_int` would raise on a byte string in the source). -/
def HVal.asNat : HVal → Option Nat
  | HVal.int n => some n
  | HVal.bytes _ => none

/-- The byte content of a header slot, if it is a byte string. -/
def HVal.asBytes : HVal → Option Bytes
  | HVal.bytes b => some b
  | HVal.int _ => none

def ACCT_RLP_LENGTH : Nat := 4
def NONCE_INDEX : Nat := 0
def BALANCE_INDEX : Nat := 1
def CODE_INDEX : Nat := 2
def STORAGE_INDEX : Nat := 3

/-- The default account record materialized for an absent account. -/
def defaultAcct : List Bytes := [[], [], [], []]

/-- `blocks.Block`: header attributes, the state trie handle, the
transaction list and the uncle list. -/
structure Block where
  number : Nat
  reward : Nat
  gaslimit : Nat
  gas_consumed : Nat
  prevhash : HVal
  uncles_root : HVal
  coinbase : HVal
  state : Trie
  transactions_root : HVal
  difficulty : HVal
  timestamp : HVal
  extradata : HVal
  nonce : HVal
  transactions : List Tx
  uncles : List Item

/-- The attribute-assignment part of `Block.__init__`: positional header
decoding, the constants, and the wrapping of the raw transaction list. -/
def Block.mkRaw (db : DB) (header : List HVal)
    (transaction_list : List (List Bytes)) (uncles : List Item) : Block :=
  { number := 0
    reward := 10 ^ 18
    gaslimit := 1000000
    gas_consumed := 0
    prevhash := header.getD 0 (HVal.bytes [])
    uncles_root := header.getD 1 (HVal.bytes [])
    coinbase := header.getD 2 (HVal.bytes [])
    state := { db := db, root := (header.getD 3 (HVal.bytes [])).toBytesD }
    transactions_root := header.getD 4 (HVal.bytes [])
    difficulty := header.getD 5 (HVal.bytes [])
    timestamp := header.getD 6 (HVal.bytes [])
    extradata := header.getD 7 (HVal.bytes [])
    nonce := header.getD 8 (HVal.bytes [])
    transactions := transaction_list.map Tx.mk
    uncles := uncles }

/-- `Block.serialize` at the nested-structure level: the canonical form
of `[header, transaction_list, uncles]` with the 10-field header written
by the source; fails where the source would raise (integer header
attributes still in byte form, or a coinbase that is not hex text). -/
def Block.serializeItem (b : Block) : Option Item := do
  let txlist := b.transactions.map Tx.serializeItem
  let ph ← b.prevhash.asBytes
  let cb ← b.coinbase.asBytes
  let cbBin ← hexDecode cb
  let d ← b.difficulty.asNat
  let ts ← b.timestamp.asNat
  let ed ← b.extradata.asBytes
  let nn ← b.nonce.asNat
  some (Item.list [Item.list [Item.str (encode_int b.number), Item.str ph,
    Item.str (sha3 (rlpEncode (Item.list b.uncles))), Item.str cbBin,
    Item.str b.state.root, Item.str (sha3 (rlpEncode (Item.list txlist))),
    Item.str (encode_int d), Item.str (encode_int ts), Item.str ed,
    Item.str (encode_int nn)], Item.list txlist, Item.list b.uncles])

/-- `Block.serialize`: the canonical bytes of the serialized structure. -/
def Block.serialize (b : Block) : Option Bytes :=
  (b.serializeItem).map rlpEncode

/-- `Block.__init__`: construction with optional validation.  The
positional reads `header[0..8]` raise on a header shorter than nine
fields; the debug log at line 58 eagerly computes `self.hash()` — hence
`serialize()` — so construction raises in either validation mode
whenever a header attribute is not serializable (binary coinbase,
byte-typed difficulty/timestamp/nonce); the three validation checks
then run in source order and the first failure aborts construction. -/
def Block.init (db : DB) (header : List HVal)
    (transaction_list : List (List Bytes)) (uncles : List Item)
    (validate : Bool) : Except String Block :=
  let b := Block.mkRaw db header transaction_list uncles
  if header.length < 9 then
    Except.error "IndexError: block header has fewer than nine fields"
  else if b.serializeItem.isNone then
    Except.error "TypeError: block header attribute is not serializable"
  else if validate then
    if HVal.bytes (sha3 (rlpEncode (txListItem transaction_list)))
        ≠ b.transactions_root then
      Except.error "Transaction list root hash does not match"
    else if HVal.bytes (sha3 (rlpEncode (Item.list uncles)))
        ≠ b.uncles_root then
      Except.error "Uncle root hash does not match"
    else if b.state.root ≠ BLANK_NODE
        ∧ alGet b.state.db.stateNodes b.state.root = none then
      Except.error "State Merkle root not found in database"
    else Except.ok b
  else Except.ok b

/-- `Block.get_index`: one raw field of an account record, with the
default record materialized for an absent account. -/
def Block.get_index (b : Block) (address : Bytes) (index : Nat) : Bytes :=
  let a := normAddr address
  ((b.state.getAcct a).getD defaultAcct).getD index []

/-- `Block.set_index`: overwrite one field of an account record and
commit the record back to the state trie. -/
def Block.set_index (b : Block) (address : Bytes) (index : Nat)
    (value : Bytes) : Block :=
  let a := normAddr address
  let acct := ((b.state.getAcct a).getD defaultAcct).set index value
  { b with state := b.state.updateAcct a acct }

/-- `Block.delta_index`: add a signed delta to an integer-valued field,
refusing (no mutation, failure flag) when the result would be negative. -/
def Block.delta_index (b : Block) (address : Bytes) (index : Nat)
    (value : Int) : Bool × Block :=
  let a := normAddr address
  let acct := (b.state.getAcct a).getD defaultAcct
  if (decode_int (acct.getD index []) : Int) + value < 0 then (false, b)
  else
    let acct2 := acct.set index
      (encode_int ((decode_int (acct.getD index []) : Int) + value).toNat)
    (true, { b with state := b.state.updateAcct a acct2 })

def Block.get_nonce (b : Block) (address : Bytes) : Nat :=
  decode_int (b.get_index address NONCE_INDEX)

def Block.increment_nonce (b : Block) (address : Bytes) : Bool × Block :=
  b.delta_index address NONCE_INDEX 1

def Block.get_balance (b : Block) (address : Bytes) : Nat :=
  decode_int (b.get_index address BALANCE_INDEX)

def Block.set_balance (b : Block) (address : Bytes) (value : Nat) : Block :=
  b.set_index address BALANCE_INDEX (encode_int value)

def Block.delta_balance (b : Block) (address : Bytes) (value : Int) :
    Bool × Block :=
  b.delta_index address BALANCE_INDEX value

/-- `Block.get_code`: resolve the code-hash field, then fetch the blob
from the content-addressed store; empty when there is no code. -/
def Block.get_code (b : Block) (address : Bytes) : Bytes :=
  let codehash := b.get_index address CODE_INDEX
  if codehash = [] then [] else (alGet b.state.db.blobs codehash).getD []

/-- `Block.set_code`: write the blob under its digest, commit the store,
then set the account's code-hash field to that digest. -/
def Block.set_code (b : Block) (address : Bytes) (value : Bytes) : Block :=
  let db := (b.state.db.putBlob (sha3 value) value).commit
  let b2 := { b with state := { b.state with db := db } }
  b2.set_index address CODE_INDEX (sha3 value)

/-- `Block.get_storage`: the storage sub-trie handle of an account,
rooted at its storage-root field over the shared store. -/
def Block.get_storage (b : Block) (address : Bytes) : Trie :=
  { db := b.state.db, root := b.get_index address STORAGE_INDEX }

/-- Modelled from the spec: `utils.coerce_to_bytes` renders an integer
storage key as canonical big-endian bytes. -/
def coerce_to_bytes (index : Nat) : Bytes := encode_int index

/-- `Block.get_storage_data`: one storage slot as an integer; an absent
key reads as 0. -/
def Block.get_storage_data (b : Block) (address : Bytes) (index : Nat) : Nat :=
  decode_int (((b.get_storage address).getStor (coerce_to_bytes index)).getD [])

/-- `Block.set_storage_data`: write one storage slot (a zero value
deletes the slot), then re-link the account's storage-root field to the
sub-trie's new root. -/
def Block.set_storage_data (b : Block) (address : Bytes) (index : Nat)
    (val : Nat) : Block :=
  let t := b.get_storage address
  let t2 := if val ≠ 0 then t.updateStor (coerce_to_bytes index) (encode_int val)
    else t.deleteStor (coerce_to_bytes index)
  let b2 := { b with state := { b.state with db := t2.db } }
  b2.set_index address STORAGE_INDEX t2.root

/-- The debug record `Block.account_to_dict` produces. -/
structure AcctDict where
  nonce : Nat
  balance : Nat
  code : Bytes
  storage : List (Nat × Nat)
deriving DecidableEq

/-- `Block.account_to_dict`: every field of one account decoded, with
the storage sub-trie fully expanded. -/
def Block.account_to_dict (b : Block) (address : Bytes) : AcctDict :=
  let a := normAddr address
  let acct := (b.state.getAcct a).getD defaultAcct
  let chash := acct.getD CODE_INDEX []
  let stdict := storMapAt b.state.db (acct.getD STORAGE_INDEX [])
  { nonce := decode_int (acct.getD NONCE_INDEX [])
    balance := decode_int (acct.getD BALANCE_INDEX [])
    code := if chash = [] then []
      else hexEncode ((alGet b.state.db.blobs chash).getD [])
    storage := stdict.map (fun p => (decode_int p.1, decode_int p.2)) }

/-- The pair captured by `Block.snapshot`. -/
structure Snapshot where
  state : Bytes
  gas : Nat
deriving DecidableEq

/-- `Block.snapshot`: capture the state root digest and the gas counter. -/
def Block.snapshot (b : Block) : Snapshot :=
  { state := b.state.root, gas := b.gas_consumed }

/-- `Block.revert`: restore the state root digest and the gas counter. -/
def Block.revert (b : Block) (mysnapshot : Snapshot) : Block :=
  { b with
    state := { b.state with root := mysnapshot.state }
    gas_consumed := mysnapshot.gas }

/-- The genesis header literal of `blocks.genesis`:
`['', '', '0'*40, BLANK_NODE, '', 2**23, 0, '', 0]`. -/
def genesisHeader : List HVal :=
  [HVal.bytes [], HVal.bytes [], HVal.bytes (List.replicate 40 48),
   HVal.bytes BLANK_NODE, HVal.bytes [], HVal.int (2 ^ 23), HVal.int 0,
   HVal.bytes [], HVal.int 0]

/-- `blocks.genesis`: the sentinel header, construction with validation
disabled, then one `set_balance` per allocation entry. -/
def genesis (db : DB) (initial_alloc : List (Bytes × Nat)) : Block :=
  initial_alloc.foldl (fun b p => b.set_balance p.1 p.2)
    (Block.mkRaw db genesisHeader [] [])

/-! ### Mutating operations for the snapshot/revert law -/

/-- One mutating accessor operation on a Block; `consumeGas` is modelled
from the spec (the cumulative gas counter is updated by the
transaction-execution collaborator). -/
inductive Op where
  | deltaBalance : Bytes → Int → Op
  | incrementNonce : Bytes → Op
  | setBalance : Bytes → Nat → Op
  | setCode : Bytes → Bytes → Op
  | setStorageData : Bytes → Nat → Nat → Op
  | consumeGas : Nat → Op

def applyOp (b : Block) : Op → Block
  | Op.deltaBalance a v => (b.delta_balance a v).2
  | Op.incrementNonce a => (b.increment_nonce a).2
  | Op.setBalance a v => b.set_balance a v
  | Op.setCode a c => b.set_code a c
  | Op.setStorageData a k v => b.set_storage_data a k v
  | Op.consumeGas g => { b with gas_consumed := b.gas_consumed + g }

def applyOps (b : Block) (ops : List Op) : Block := ops.foldl applyOp b

/-! ### Store invariant lemmas -/

theorem alGet_cons {α : Type} (p : Bytes × α) (l : List (Bytes × α))
    (k : Bytes) :
    alGet (p :: l) k = if p.1 = k then some p.2 else alGet l k := rfl

theorem DB.wfb_state {d : DB} (h : d.wfb = true) {k : Bytes}
    {m : List (Bytes × List Bytes)} (hm : alGet d.stateNodes k = some m) :
    k = rootOfState m ∧ m ≠ [] ∧ ∀ q ∈ m, q.2.length = 4 := by
  have hmem := alGet_mem hm
  rw [DB.wfb] at h
  simp only [Bool.and_eq_true] at h
  have h2 := List.all_eq_true.mp h.1.1 _ hmem
  simp only [Bool.and_eq_true, decide_eq_true_eq, Bool.not_eq_true'] at h2
  refine ⟨h2.1.1, ?_, ?_⟩
  · intro hc
    rw [hc] at h2
    simp at h2
  · intro q hq
    have := List.all_eq_true.mp h2.2 q hq
    simpa using this

theorem DB.wfb_stor {d : DB} (h : d.wfb = true) {k : Bytes}
    {m : List (Bytes × Bytes)} (hm : alGet d.storNodes k = some m) :
    k = rootOfStor m ∧ m ≠ [] := by
  have hmem := alGet_mem hm
  rw [DB.wfb] at h
  simp only [Bool.and_eq_true] at h
  have h2 := List.all_eq_true.mp h.1.2 _ hmem
  simp only [Bool.and_eq_true, decide_eq_true_eq, Bool.not_eq_true'] at h2
  refine ⟨h2.1, ?_⟩
  intro hc
  rw [hc] at h2
  simp at h2

theorem DB.wfb_blob {d : DB} (h : d.wfb = true) {k v : Bytes}
    (hv : alGet d.blobs k = some v) : k = sha3 v := by
  have hmem := alGet_mem hv
  rw [DB.wfb] at h
  simp only [Bool.and_eq_true] at h
  have h2 := List.all_eq_true.mp h.2 _ hmem
  simpa using h2

theorem putState_storNodes (d : DB) (k : Bytes) (m : List (Bytes × List Bytes)) :
    (d.putState k m).storNodes = d.storNodes := by
  rw [DB.putState]; split <;> rfl

theorem putState_blobs (d : DB) (k : Bytes) (m : List (Bytes × List Bytes)) :
    (d.putState k m).blobs = d.blobs := by
  rw [DB.putState]; split <;> rfl

theorem putStor_stateNodes (d : DB) (k : Bytes) (m : List (Bytes × Bytes)) :
    (d.putStor k m).stateNodes = d.stateNodes := by
  rw [DB.putStor]; split <;> rfl

theorem putStor_blobs (d : DB) (k : Bytes) (m : List (Bytes × Bytes)) :
    (d.putStor k m).blobs = d.blobs := by
  rw [DB.putStor]; split <;> rfl

theorem putBlob_stateNodes (d : DB) (k b : Bytes) :
    (d.putBlob k b).stateNodes = d.stateNodes := by
  rw [DB.putBlob]; split <;> rfl

theorem putBlob_storNodes (d : DB) (k b : Bytes) :
    (d.putBlob k b).storNodes = d.storNodes := by
  rw [DB.putBlob]; split <;> rfl

/-- Reading back a just-written state node: under store well-formedness
the content-addressed key can only hold that very node. -/
theorem alGet_putState_self {d : DB} (h : d.wfb = true)
    {m : List (Bytes × List Bytes)} (hm : m ≠ []) :
    alGet (d.putState (rootOfState m) m).stateNodes (rootOfState m) = some m := by
  rw [DB.putState]
  split
  · rename_i hsome
    rcases Option.isSome_iff_exists.mp hsome with ⟨m2, hm2⟩
    rw [hm2]
    rcases DB.wfb_state h hm2 with ⟨hk, hne, _⟩
    rw [rootOfState_inj hne hm (hk.symm)]
  · rw [alGet_cons, if_pos rfl]

theorem alGet_putStor_self {d : DB} (h : d.wfb = true)
    {m : List (Bytes × Bytes)} (hm : m ≠ []) :
    alGet (d.putStor (rootOfStor m) m).storNodes (rootOfStor m) = some m := by
  rw [DB.putStor]
  split
  · rename_i hsome
    rcases Option.isSome_iff_exists.mp hsome with ⟨m2, hm2⟩
    rw [hm2]
    rcases DB.wfb_stor h hm2 with ⟨hk, hne⟩
    rw [rootOfStor_inj hne hm (hk.symm)]
  · rw [alGet_cons, if_pos rfl]

theorem alGet_putBlob_self {d : DB} (h : d.wfb = true) (v : Bytes) :
    alGet (d.putBlob (sha3 v) v).blobs (sha3 v) = some v := by
  rw [DB.putBlob]
  split
  · rename_i hsome
    rcases Option.isSome_iff_exists.mp hsome with ⟨v2, hv2⟩
    rw [hv2, sha3_injective (DB.wfb_blob h hv2).symm]
  · rw [alGet_cons, if_pos rfl]

/-- Write-once insertion preserves store well-formedness. -/
theorem wfb_putState {d : DB} (h : d.wfb = true)
    {m : List (Bytes × List Bytes)} (hm : m ≠ [])
    (hlen : ∀ q ∈ m, q.2.length = 4) :
    (d.putState (rootOfState m) m).wfb = true := by
  rw [DB.putState]
  split
  · exact h
  · rw [DB.wfb] at h ⊢
    simp only [Bool.and_eq_true] at h ⊢
    refine ⟨⟨?_, h.1.2⟩, h.2⟩
    rw [List.all_cons]
    simp only [Bool.and_eq_true]
    refine ⟨?_, h.1.1⟩
    simp only [Bool.and_eq_true, decide_eq_true_eq, Bool.not_eq_true']
    refine ⟨⟨trivial, by simpa using hm⟩, ?_⟩
    exact List.all_eq_true.mpr (fun q hq => by simpa using hlen q hq)

theorem wfb_putStor {d : DB} (h : d.wfb = true)
    {m : List (Bytes × Bytes)} (hm : m ≠ []) :
    (d.putStor (rootOfStor m) m).wfb = true := by
  rw [DB.putStor]
  split
  · exact h
  · rw [DB.wfb] at h ⊢
    simp only [Bool.and_eq_true] at h ⊢
    refine ⟨⟨h.1.1, ?_⟩, h.2⟩
    rw [List.all_cons]
    simp only [Bool.and_eq_true]
    refine ⟨?_, h.1.2⟩
    simp only [Bool.and_eq_true, decide_eq_true_eq, Bool.not_eq_true']
    exact ⟨trivial, by simpa using hm⟩

theorem wfb_putBlob {d : DB} (h : d.wfb = true) (v : Bytes) :
    (d.putBlob (sha3 v) v).wfb = true := by
  rw [DB.putBlob]
  split
  · exact h
  · rw [DB.wfb] at h ⊢
    simp only [Bool.and_eq_true] at h ⊢
    refine ⟨h.1, ?_⟩
    rw [List.all_cons]
    simp only [Bool.and_eq_true]
    exact ⟨by simp, h.2⟩

/-! ### Store extension: mutations never disturb committed content -/

/-- `d2` extends `d`: every node or blob present in `d` is present with
the same content in `d2` (the append-only / versioned store discipline). -/
structure DB.Ext (d d2 : DB) : Prop where
  state : ∀ k v, alGet d.stateNodes k = some v → alGet d2.stateNodes k = some v
  stor : ∀ k v, alGet d.storNodes k = some v → alGet d2.storNodes k = some v
  blob : ∀ k v, alGet d.blobs k = some v → alGet d2.blobs k = some v

theorem DB.Ext.rfl (d : DB) : DB.Ext d d :=
  ⟨fun _ _ h => h, fun _ _ h => h, fun _ _ h => h⟩

theorem DB.Ext.trans {d1 d2 d3 : DB} (h1 : DB.Ext d1 d2) (h2 : DB.Ext d2 d3) :
    DB.Ext d1 d3 :=
  ⟨fun k v h => h2.state k v (h1.state k v h),
   fun k v h => h2.stor k v (h1.stor k v h),
   fun k v h => h2.blob k v (h1.blob k v h)⟩

theorem alGet_insert_absent {α : Type} {l : List (Bytes × α)} {k : Bytes}
    (hk : alGet l k = none) (p : Bytes × α) {k2 : Bytes} {v : α}
    (h : alGet l k2 = some v) (hp : p.1 = k) : alGet (p :: l) k2 = some v := by
  rw [alGet_cons]
  split
  · rename_i he
    rw [hp] at he
    rw [he] at hk
    rw [hk] at h
    exact absurd h (by simp)
  · exact h

theorem ext_putState (d : DB) (k : Bytes) (m : List (Bytes × List Bytes)) :
    DB.Ext d (d.putState k m) := by
  rw [DB.putState]
  split
  · exact DB.Ext.rfl d
  · rename_i hnot
    refine ⟨fun k2 v h => ?_, fun _ _ h => h, fun _ _ h => h⟩
    exact alGet_insert_absent (Option.not_isSome_iff_eq_none.mp hnot) _ h rfl

theorem ext_putStor (d : DB) (k : Bytes) (m : List (Bytes × Bytes)) :
    DB.Ext d (d.putStor k m) := by
  rw [DB.putStor]
  split
  · exact DB.Ext.rfl d
  · rename_i hnot
    refine ⟨fun _ _ h => h, fun k2 v h => ?_, fun _ _ h => h⟩
    exact alGet_insert_absent (Option.not_isSome_iff_eq_none.mp hnot) _ h rfl

theorem ext_putBlob (d : DB) (k b : Bytes) : DB.Ext d (d.putBlob k b) := by
  rw [DB.putBlob]
  split
  · exact DB.Ext.rfl d
  · rename_i hnot
    refine ⟨fun _ _ h => h, fun _ _ h => h, fun k2 v h => ?_⟩
    exact alGet_insert_absent (Option.not_isSome_iff_eq_none.mp hnot) _ h rfl

/-! ### Trie-level lemmas -/

theorem stateMapAt_wf_mem {d : DB} (h : d.wfb = true) (r : Bytes) :
    ∀ q ∈ stateMapAt d r, q.2.length = 4 := by
  intro q hq
  rw [stateMapAt] at hq
  split at hq
  · simp at hq
  · cases hm : alGet d.stateNodes r with
    | none => rw [hm] at hq; simp at hq
    | some m =>
      rw [hm, Option.getD_some] at hq
      exact (DB.wfb_state h hm).2.2 _ hq

theorem stateMapAt_wf {d : DB} (h : d.wfb = true) (r : Bytes) :
    ∀ a acct, alGet (stateMapAt d r) a = some acct → acct.length = 4 :=
  fun _ _ ha => stateMapAt_wf_mem h r _ (alGet_mem ha)

theorem alSet_len4 {d : DB} (h : d.wfb = true) (r k : Bytes)
    {v : List Bytes} (hv : v.length = 4) :
    ∀ q ∈ alSet (stateMapAt d r) k v, q.2.length = 4 := by
  intro q hq
  rcases List.mem_cons.mp hq with hq1 | hq2
  · rw [hq1]; exact hv
  · exact stateMapAt_wf_mem h r q (List.mem_of_mem_filter hq2)

theorem stateMapAt_updateAcct (t : Trie) (h : t.db.wfb = true) (k : Bytes)
    (v : List Bytes) :
    stateMapAt (t.updateAcct k v).db (t.updateAcct k v).root
      = alSet (stateMapAt t.db t.root) k v := by
  show stateMapAt
    (t.db.putState (rootOfState (alSet (stateMapAt t.db t.root) k v))
      (alSet (stateMapAt t.db t.root) k v))
    (rootOfState (alSet (stateMapAt t.db t.root) k v)) = _
  have hmne := alSet_ne_nil (stateMapAt t.db t.root) k v
  rw [stateMapAt, if_neg (rootOfState_ne_nil hmne),
    alGet_putState_self h hmne, Option.getD_some]

theorem wfb_updateAcct (t : Trie) (h : t.db.wfb = true) (k : Bytes)
    {v : List Bytes} (hv : v.length = 4) :
    (t.updateAcct k v).db.wfb = true := by
  show (t.db.putState _ _).wfb = true
  exact wfb_putState h (alSet_ne_nil _ _ _) (alSet_len4 h _ _ hv)

theorem updateAcct_storNodes (t : Trie) (k : Bytes) (v : List Bytes) :
    (t.updateAcct k v).db.storNodes = t.db.storNodes := putState_storNodes _ _ _

theorem updateAcct_blobs (t : Trie) (k : Bytes) (v : List Bytes) :
    (t.updateAcct k v).db.blobs = t.db.blobs := putState_blobs _ _ _

theorem storMapAt_updateStor (t : Trie) (h : t.db.wfb = true) (k v : Bytes) :
    storMapAt (t.updateStor k v).db (t.updateStor k v).root
      = alSet (storMapAt t.db t.root) k v := by
  show storMapAt
    (t.db.putStor (rootOfStor (alSet (storMapAt t.db t.root) k v))
      (alSet (storMapAt t.db t.root) k v))
    (rootOfStor (alSet (storMapAt t.db t.root) k v)) = _
  have hmne := alSet_ne_nil (storMapAt t.db t.root) k v
  rw [storMapAt, if_neg (rootOfStor_ne_nil hmne),
    alGet_putStor_self h hmne, Option.getD_some]

theorem wfb_updateStor (t : Trie) (h : t.db.wfb = true) (k v : Bytes) :
    (t.updateStor k v).db.wfb = true := by
  show (t.db.putStor _ _).wfb = true
  exact wfb_putStor h (alSet_ne_nil _ _ _)

theorem storMapAt_deleteStor (t : Trie) (h : t.db.wfb = true) (k : Bytes) :
    storMapAt (t.deleteStor k).db (t.deleteStor k).root
      = alErase (storMapAt t.db t.root) k := by
  rw [Trie.deleteStor]
  split
  · rename_i hemp
    show storMapAt t.db [] = _
    rw [storMapAt, if_pos rfl, List.isEmpty_iff.mp hemp]
  · rename_i hemp
    have hmne : alErase (storMapAt t.db t.root) k ≠ [] := by
      intro hc
      exact hemp (by rw [hc]; rfl)
    show storMapAt (t.db.putStor _ _) (rootOfStor _) = _
    rw [storMapAt, if_neg (rootOfStor_ne_nil hmne),
      alGet_putStor_self h hmne, Option.getD_some]

theorem wfb_deleteStor (t : Trie) (h : t.db.wfb = true) (k : Bytes) :
    (t.deleteStor k).db.wfb = true := by
  rw [Trie.deleteStor]
  split
  · exact h
  · rename_i hemp
    have hmne : alErase (storMapAt t.db t.root) k ≠ [] := by
      intro hc
      exact hemp (by rw [hc]; rfl)
    show (t.db.putStor _ _).wfb = true
    exact wfb_putStor h hmne

theorem updateStor_stateNodes (t : Trie) (k v : Bytes) :
    (t.updateStor k v).db.stateNodes = t.db.stateNodes := putStor_stateNodes _ _ _

theorem updateStor_blobs (t : Trie) (k v : Bytes) :
    (t.updateStor k v).db.blobs = t.db.blobs := putStor_blobs _ _ _

theorem deleteStor_stateNodes (t : Trie) (k : Bytes) :
    (t.deleteStor k).db.stateNodes = t.db.stateNodes := by
  rw [Trie.deleteStor]
  split
  · rfl
  · exact putStor_stateNodes _ _ _

theorem deleteStor_blobs (t : Trie) (k : Bytes) :
    (t.deleteStor k).db.blobs = t.db.blobs := by
  rw [Trie.deleteStor]
  split
  · rfl
  · exact putStor_blobs _ _ _

/-! ### Block accessor lemmas -/

/-- The account record an address resolves to, with the default record
materialized for an absent account. -/
def acctOf (b : Block) (address : Bytes) : List Bytes :=
  (b.state.getAcct (normAddr address)).getD defaultAcct

theorem get_index_eq (b : Block) (a : Bytes) (i : Nat) :
    b.get_index a i = (acctOf b a).getD i [] := rfl

theorem acctOf_len {b : Block} (h : b.state.db.wfb = true) (a : Bytes) :
    (acctOf b a).length = 4 := by
  rw [acctOf]
  cases hg : b.state.getAcct (normAddr a) with
  | none => rfl
  | some acct =>
    rw [Option.getD_some]
    exact stateMapAt_wf h _ _ _ hg

theorem getAcct_set_index {b : Block} (h : b.state.db.wfb = true)
    (a : Bytes) (i : Nat) (v : Bytes) (k : Bytes) :
    (b.set_index a i v).state.getAcct k =
      if k = normAddr a then some ((acctOf b a).set i v)
      else b.state.getAcct k := by
  show (b.state.updateAcct (normAddr a) ((acctOf b a).set i v)).getAcct k = _
  rw [Trie.getAcct, stateMapAt_updateAcct _ h, alGet_set]
  rfl

theorem get_index_set_index {b : Block} (h : b.state.db.wfb = true)
    (a : Bytes) (i : Nat) (v : Bytes) (a2 : Bytes) (i2 : Nat) :
    (b.set_index a i v).get_index a2 i2 =
      if normAddr a2 = normAddr a then ((acctOf b a).set i v).getD i2 []
      else b.get_index a2 i2 := by
  rw [get_index_eq, get_index_eq, acctOf, getAcct_set_index h]
  split
  · rw [Option.getD_some]
  · rfl

theorem wfb_set_index {b : Block} (h : b.state.db.wfb = true)
    (a : Bytes) (i : Nat) (v : Bytes) :
    (b.set_index a i v).state.db.wfb = true := by
  show (b.state.updateAcct (normAddr a) ((acctOf b a).set i v)).db.wfb = true
  exact wfb_updateAcct _ h _ (by rw [List.length_set]; exact acctOf_len h a)

theorem set_index_storNodes (b : Block) (a : Bytes) (i : Nat) (v : Bytes) :
    (b.set_index a i v).state.db.storNodes = b.state.db.storNodes :=
  updateAcct_storNodes _ _ _

theorem set_index_blobs (b : Block) (a : Bytes) (i : Nat) (v : Bytes) :
    (b.set_index a i v).state.db.blobs = b.state.db.blobs :=
  updateAcct_blobs _ _ _

theorem set_index_gas (b : Block) (a : Bytes) (i : Nat) (v : Bytes) :
    (b.set_index a i v).gas_consumed = b.gas_consumed := rfl

/-- The refusing branch of `delta_index`: the failure flag is returned and
the Block — account record, store and all — is exactly unchanged. -/
theorem delta_index_neg {b : Block} {a : Bytes} {i : Nat} {v : Int}
    (hneg : (decode_int (b.get_index a i) : Int) + v < 0) :
    b.delta_index a i v = (false, b) := by
  rw [Block.delta_index]
  rw [if_pos (by rw [get_index_eq] at hneg; exact hneg)]

/-- The succeeding branch of `delta_index` coincides with a `set_index`
of the re-encoded sum. -/
theorem delta_index_nonneg {b : Block} {a : Bytes} {i : Nat} {v : Int}
    (hnn : 0 ≤ (decode_int (b.get_index a i) : Int) + v) :
    b.delta_index a i v =
      (true, b.set_index a i
        (encode_int ((decode_int (b.get_index a i) : Int) + v).toNat)) := by
  rw [Block.delta_index]
  rw [if_neg (by rw [get_index_eq, acctOf] at hnn; omega)]
  rfl

theorem stateMapAt_congr {d d2 : DB} (h : d2.stateNodes = d.stateNodes)
    (r : Bytes) : stateMapAt d2 r = stateMapAt d r := by
  rw [stateMapAt, stateMapAt, h]

theorem storMapAt_congr {d d2 : DB} (h : d2.storNodes = d.storNodes)
    (r : Bytes) : storMapAt d2 r = storMapAt d r := by
  rw [storMapAt, storMapAt, h]

/-! #### set_code -/

/-- `set_code` is the blob write followed by a `set_index` of the digest. -/
theorem set_code_eq (b : Block) (a v : Bytes) :
    b.set_code a v =
      ({ b with state := { b.state with db := b.state.db.putBlob (sha3 v) v } }
        : Block).set_index a CODE_INDEX (sha3 v) := rfl

theorem acctOf_db_change (b : Block) (d2 : DB)
    (hs : d2.stateNodes = b.state.db.stateNodes) (a2 : Bytes) :
    acctOf ({ b with state := { b.state with db := d2 } } : Block) a2
      = acctOf b a2 := by
  rw [acctOf, acctOf, Trie.getAcct, Trie.getAcct]
  have hroot : ({ b with state := { b.state with db := d2 } }
      : Block).state.root = b.state.root := rfl
  have hdb : ({ b with state := { b.state with db := d2 } }
      : Block).state.db = d2 := rfl
  rw [hroot, hdb, stateMapAt_congr hs]

theorem acctOf_putBlob (b : Block) (a v : Bytes) :
    acctOf ({ b with state := { b.state with
        db := b.state.db.putBlob (sha3 v) v } } : Block) a = acctOf b a :=
  acctOf_db_change b _ (putBlob_stateNodes _ _ _) a

theorem wfb_set_code {b : Block} (h : b.state.db.wfb = true) (a v : Bytes) :
    (b.set_code a v).state.db.wfb = true := by
  rw [set_code_eq]
  exact wfb_set_index (wfb_putBlob h v) _ _ _

theorem get_index_set_code {b : Block} (h : b.state.db.wfb = true)
    (a v : Bytes) (a2 : Bytes) (i2 : Nat) :
    (b.set_code a v).get_index a2 i2 =
      if normAddr a2 = normAddr a
      then ((acctOf b a).set CODE_INDEX (sha3 v)).getD i2 []
      else b.get_index a2 i2 := by
  rw [set_code_eq, get_index_set_index (wfb_putBlob h v), acctOf_putBlob]
  split
  · rfl
  · rw [get_index_eq, get_index_eq, acctOf_putBlob]

theorem set_code_blobs {b : Block} (a v : Bytes) :
    (b.set_code a v).state.db.blobs = (b.state.db.putBlob (sha3 v) v).blobs := by
  rw [set_code_eq, set_index_blobs]

theorem set_code_storNodes (b : Block) (a v : Bytes) :
    (b.set_code a v).state.db.storNodes = b.state.db.storNodes := by
  rw [set_code_eq, set_index_storNodes]
  exact putBlob_storNodes _ _ _

/-! #### set_storage_data -/

/-- The sub-trie produced by one storage write, before re-linking. -/
def storTrieAfter (b : Block) (address : Bytes) (index : Nat) (val : Nat) :
    Trie :=
  if val ≠ 0 then
    (b.get_storage address).updateStor (coerce_to_bytes index) (encode_int val)
  else (b.get_storage address).deleteStor (coerce_to_bytes index)

theorem set_storage_data_eq (b : Block) (a : Bytes) (k val : Nat) :
    b.set_storage_data a k val =
      ({ b with state := { b.state with db := (storTrieAfter b a k val).db } }
        : Block).set_index a STORAGE_INDEX (storTrieAfter b a k val).root := by
  rw [Block.set_storage_data, storTrieAfter]

theorem storTrieAfter_stateNodes (b : Block) (a : Bytes) (k val : Nat) :
    (storTrieAfter b a k val).db.stateNodes = b.state.db.stateNodes := by
  rw [storTrieAfter]
  split
  · exact updateStor_stateNodes _ _ _
  · exact deleteStor_stateNodes _ _

theorem storTrieAfter_blobs (b : Block) (a : Bytes) (k val : Nat) :
    (storTrieAfter b a k val).db.blobs = b.state.db.blobs := by
  rw [storTrieAfter]
  split
  · exact updateStor_blobs _ _ _
  · exact deleteStor_blobs _ _

theorem wfb_storTrieAfter {b : Block} (h : b.state.db.wfb = true)
    (a : Bytes) (k val : Nat) : (storTrieAfter b a k val).db.wfb = true := by
  rw [storTrieAfter]
  split
  · exact wfb_updateStor (b.get_storage a) h _ _
  · exact wfb_deleteStor (b.get_storage a) h _

theorem acctOf_storTrieAfter (b : Block) (a : Bytes) (k val : Nat) (a2 : Bytes) :
    acctOf ({ b with state := { b.state with
        db := (storTrieAfter b a k val).db } } : Block) a2 = acctOf b a2 :=
  acctOf_db_change b _ (storTrieAfter_stateNodes b a k val) a2

theorem wfb_set_storage_data {b : Block} (h : b.state.db.wfb = true)
    (a : Bytes) (k val : Nat) :
    (b.set_storage_data a k val).state.db.wfb = true := by
  rw [set_storage_data_eq]
  exact wfb_set_index (wfb_storTrieAfter h a k val) _ _ _

theorem get_index_set_storage_data {b : Block} (h : b.state.db.wfb = true)
    (a : Bytes) (k val : Nat) (a2 : Bytes) (i2 : Nat) :
    (b.set_storage_data a k val).get_index a2 i2 =
      if normAddr a2 = normAddr a
      then ((acctOf b a).set STORAGE_INDEX (storTrieAfter b a k val).root).getD i2 []
      else b.get_index a2 i2 := by
  rw [set_storage_data_eq,
    get_index_set_index (wfb_storTrieAfter h a k val), acctOf_storTrieAfter]
  split
  · rfl
  · rw [get_index_eq, get_index_eq, acctOf_storTrieAfter]

/-- After a storage write, the map committed to by the re-linked root is
the written map. -/
theorem storMapAt_storTrieAfter {b : Block} (h : b.state.db.wfb = true)
    (a : Bytes) (k val : Nat) :
    storMapAt (storTrieAfter b a k val).db (storTrieAfter b a k val).root =
      if val ≠ 0 then
        alSet (storMapAt b.state.db (b.get_index a STORAGE_INDEX))
          (coerce_to_bytes k) (encode_int val)
      else alErase (storMapAt b.state.db (b.get_index a STORAGE_INDEX))
          (coerce_to_bytes k) := by
  rw [storTrieAfter]
  split
  · rw [storMapAt_updateStor (b.get_storage a) h]
    rfl
  · rw [storMapAt_deleteStor (b.get_storage a) h]
    rfl

/-! ### Header casting, parsing, and small helpers -/

/-- `blocks.cast_block_header_from_rlp_decoded`: hex-encodes the coinbase
and decodes difficulty, timestamp and nonce to integers; the other
positional fields pass through as bytes. -/
def cast_block_header_from_rlp_decoded (prevhash uncles_root coinbase
    state transactions_root difficulty timestamp extradata nonce : Bytes) :
    List HVal :=
  [HVal.bytes prevhash, HVal.bytes uncles_root,
   HVal.bytes (hexEncode coinbase), HVal.bytes state,
   HVal.bytes transactions_root, HVal.int (decode_int difficulty),
   HVal.int (decode_int timestamp), HVal.bytes extradata,
   HVal.int (decode_int nonce)]

/-- A header slot as parsed from the canonical wire form (always a byte
string there). -/
def itemToVal : Item → HVal
  | Item.str s => HVal.bytes s
  | _ => HVal.bytes []

/-- A raw transaction as parsed from the canonical wire form. -/
def itemToTx (it : Item) : List Bytes :=
  ((itemToList it).getD []).map (fun i => match i with
    | Item.str s => s
    | _ => [])

/-- Modelled from the spec: the canonical decode is the exact inverse of
the canonical encode, so parsing the bytes of `Block.serialize` yields
the nested structure `Block.serializeItem` built; this destructures it
as `[header, transaction_list, uncles]` into raw constructor inputs. -/
def parseFields (it : Item) :
    Option (List HVal × List (List Bytes) × List Item) :=
  match itemToList it with
  | some [hdr, txs, uncs] =>
    match itemToList hdr, itemToList txs, itemToList uncs with
    | some hdrl, some txl, some uncl =>
        some (hdrl.map itemToVal, txl.map itemToTx, uncl)
    | _, _, _ => none
  | _ => none

/-- Rebuild a Block from parsed constructor inputs, validation disabled. -/
def parseBlock (db : DB) (it : Item) : Option Block :=
  (parseFields it).bind (fun t =>
    match Block.init db t.1 t.2.1 t.2.2 false with
    | Except.ok b => some b
    | Except.error _ => none)

/-- Serialize a Block and parse the result back (validation disabled). -/
def roundTrip (db : DB) (b : Block) : Option Block :=
  b.serializeItem.bind (parseBlock db)

/-- The empty store. -/
def emptyDB : DB := { stateNodes := [], storNodes := [], blobs := [] }

theorem defaultAcct_getD : ∀ i : Nat, defaultAcct.getD i [] = []
  | 0 => rfl
  | 1 => rfl
  | 2 => rfl
  | 3 => rfl
  | n + 4 => List.getD_eq_default _ _ (by rw [defaultAcct]; simp)

theorem getD_set_self {l : List Bytes} {i : Nat} (h : i < l.length)
    (v : Bytes) : (l.set i v).getD i [] = v := by
  rw [List.getD_eq_getElem?_getD, List.getElem?_set_self h]
  rfl

theorem getD_set_ne {l : List Bytes} {i j : Nat} (h : i ≠ j) (v : Bytes) :
    (l.set i v).getD j [] = l.getD j [] := by
  rw [List.getD_eq_getElem?_getD, List.getElem?_set_ne h,
    ← List.getD_eq_getElem?_getD]

/-- Every `ok` branch of the constructor returns the decoded record. -/
theorem Block.init_ok {db : DB} {header : List HVal}
    {txl : List (List Bytes)} {uncles : List Item} {v : Bool} {blk : Block}
    (h : Block.init db header txl uncles v = Except.ok blk) :
    blk = Block.mkRaw db header txl uncles := by
  simp only [Block.init] at h
  split at h
  · exact Except.noConfusion h
  · split at h
    · exact Except.noConfusion h
    · split at h
      · split at h
        · exact Except.noConfusion h
        · split at h
          · exact Except.noConfusion h
          · split at h
            · exact Except.noConfusion h
            · exact (Except.ok.inj h).symm
      · exact (Except.ok.inj h).symm

@[simp] theorem isOk_error (e : String) :
    (Except.error e : Except String Block).isOk = false := rfl

@[simp] theorem isOk_ok (b : Block) :
    (Except.ok b : Except String Block).isOk = true := rfl

/-! ### Claim theorems -/

/-- A nine-field header whose coinbase is raw binary (odd length, not
hex text): the source assigns all attributes and then raises at the
line-58 debug hash, in either validation mode, even though all three
validation conditions are satisfied. -/
def c2hdrBad : List HVal :=
  [HVal.bytes [7], HVal.bytes (sha3 (rlpEncode (Item.list []))),
   HVal.bytes [0], HVal.bytes [],
   HVal.bytes (sha3 (rlpEncode (txListItem []))), HVal.int 3, HVal.int 7,
   HVal.bytes [], HVal.int 9]

/-- Claim C2 counterexample: at `c2hdrBad` the transaction root matches,
the uncle root matches and the state root is blank, yet construction
fails with validation disabled and with validation enabled — refuting
both "fails iff one of the three checks holds" and "with validate=False
construction always succeeds". -/
theorem claim_C2_counterexample :
    (Block.init emptyDB c2hdrBad [] [] false).isOk = false ∧
    (Block.init emptyDB c2hdrBad [] [] true).isOk = false ∧
    HVal.bytes (sha3 (rlpEncode (txListItem [])))
      = (Block.mkRaw emptyDB c2hdrBad [] []).transactions_root ∧
    HVal.bytes (sha3 (rlpEncode (Item.list [])))
      = (Block.mkRaw emptyDB c2hdrBad [] []).uncles_root ∧
    (Block.mkRaw emptyDB c2hdrBad [] []).state.root = BLANK_NODE :=
  ⟨by rfl, by rfl, by rfl, by rfl, by rfl⟩

/-- Claim C2 (amended): for a well-formed constructor input — a header
of at least nine positional fields whose attributes are serializable
(hex-text coinbase, integer difficulty/timestamp/nonce, byte-string
prevhash/extradata, the shape `cast_block_header_from_rlp_decoded`
produces) — construction with validation enabled fails exactly when the
digest of the canonically encoded transaction list differs from the
header's transactions root, the digest of the encoded uncle list
differs from the header's uncles root, or the header's state root is
non-blank with no node stored at it; when none of these hold — and
always with validation disabled — construction succeeds with the
decoded Block.  (Outside that shape the source raises in either mode at
the line-58 debug hash or the positional header reads.) -/
theorem claim_C2_validation_iff (db : DB) (header : List HVal)
    (txl : List (List Bytes)) (uncles : List Item)
    (hlen : 9 ≤ header.length)
    (hser : (Block.mkRaw db header txl uncles).serializeItem.isSome
      = true) :
    ((Block.init db header txl uncles true).isOk = false ↔
      (HVal.bytes (sha3 (rlpEncode (txListItem txl)))
          ≠ (Block.mkRaw db header txl uncles).transactions_root ∨
        HVal.bytes (sha3 (rlpEncode (Item.list uncles)))
          ≠ (Block.mkRaw db header txl uncles).uncles_root ∨
        ((Block.mkRaw db header txl uncles).state.root ≠ BLANK_NODE ∧
          alGet db.stateNodes (Block.mkRaw db header txl uncles).state.root
            = none))) ∧
    Block.init db header txl uncles false
      = Except.ok (Block.mkRaw db header txl uncles) := by
  have hdb : (Block.mkRaw db header txl uncles).state.db = db := rfl
  have hnl : ¬(header.length < 9) := by omega
  have hnn : ¬((Block.mkRaw db header txl uncles).serializeItem.isNone
      = true) := by
    rcases Option.isSome_iff_exists.mp hser with ⟨it, hit⟩
    rw [hit]
    simp
  constructor
  · simp only [Block.init, if_true]
    rw [if_neg hnl, if_neg hnn, hdb]
    by_cases c1 : HVal.bytes (sha3 (rlpEncode (txListItem txl)))
        ≠ (Block.mkRaw db header txl uncles).transactions_root
    · simp [c1]
    · by_cases c2 : HVal.bytes (sha3 (rlpEncode (Item.list uncles)))
          ≠ (Block.mkRaw db header txl uncles).uncles_root
      · simp [c1, c2]
      · by_cases c3 : (Block.mkRaw db header txl uncles).state.root
            ≠ BLANK_NODE ∧
            alGet db.stateNodes (Block.mkRaw db header txl uncles).state.root
              = none
        · simp [c1, c2, c3]
        · simp [c1, c2, c3]
  · simp only [Block.init]
    rw [if_neg hnl, if_neg hnn]
    rfl

/-- A well-formed cast header for the amended-claim witness. -/
def c2hdr : List HVal :=
  cast_block_header_from_rlp_decoded [2] (sha3 (rlpEncode (Item.list [])))
    (List.replicate 20 1) [] (sha3 (rlpEncode (txListItem []))) [4] [8] []
    [6]

/-- Claim C2 witness: the amended claim applied at a concrete
serializable nine-field header over the empty store. -/
theorem claim_C2_witness :
    ((Block.init emptyDB c2hdr [] [] true).isOk = false ↔
      (HVal.bytes (sha3 (rlpEncode (txListItem [])))
          ≠ (Block.mkRaw emptyDB c2hdr [] []).transactions_root ∨
        HVal.bytes (sha3 (rlpEncode (Item.list [])))
          ≠ (Block.mkRaw emptyDB c2hdr [] []).uncles_root ∨
        ((Block.mkRaw emptyDB c2hdr [] []).state.root ≠ BLANK_NODE ∧
          alGet emptyDB.stateNodes (Block.mkRaw emptyDB c2hdr [] []).state.root
            = none))) ∧
    Block.init emptyDB c2hdr [] [] false
      = Except.ok (Block.mkRaw emptyDB c2hdr [] []) :=
  claim_C2_validation_iff emptyDB c2hdr [] [] (by decide) (by rfl)

/-- Claim C3: the stored value of an integer field never decodes below
zero; a delta that would make it negative returns the failure flag and
leaves the Block — account record and store included — exactly
unchanged, while any other delta returns the success flag and stores the
re-encoded sum. -/
theorem claim_C3_delta_nonneg (b : Block) (h : b.state.db.wfb = true)
    (a : Bytes) (i : Nat) (hi : i < 4) (v : Int) :
    (0 : Int) ≤ (decode_int (b.get_index a i) : Int) ∧
    ((decode_int (b.get_index a i) : Int) + v < 0 →
      b.delta_index a i v = (false, b)) ∧
    (0 ≤ (decode_int (b.get_index a i) : Int) + v →
      (b.delta_index a i v).1 = true ∧
      (b.delta_index a i v).2.get_index a i
        = encode_int ((decode_int (b.get_index a i) : Int) + v).toNat ∧
      (decode_int ((b.delta_index a i v).2.get_index a i) : Int)
        = (decode_int (b.get_index a i) : Int) + v) := by
  refine ⟨Int.natCast_nonneg _, fun hneg => delta_index_neg hneg,
    fun hnn => ?_⟩
  rw [delta_index_nonneg hnn]
  have hlen : i < (acctOf b a).length := by rw [acctOf_len h]; exact hi
  refine ⟨rfl, ?_, ?_⟩
  · rw [get_index_set_index h, if_pos rfl, getD_set_self hlen]
  · rw [get_index_set_index h, if_pos rfl, getD_set_self hlen,
      decode_encode_int]
    omega

/-- Claim C3 witness: on a concrete fresh Block, a delta of -1 on the
zero balance fails and changes nothing, while a delta of +5 succeeds. -/
theorem claim_C3_witness :
    (Block.mkRaw emptyDB genesisHeader [] []).delta_index [1] 1 (-1)
      = (false, Block.mkRaw emptyDB genesisHeader [] []) ∧
    ((Block.mkRaw emptyDB genesisHeader [] []).delta_index [2] 1 5).1
      = true :=
  ⟨(claim_C3_delta_nonneg (Block.mkRaw emptyDB genesisHeader [] []) rfl
      [1] 1 (by norm_num) (-1)).2.1 (by decide),
   ((claim_C3_delta_nonneg (Block.mkRaw emptyDB genesisHeader [] []) rfl
      [2] 1 (by norm_num) 5).2.2 (by decide)).1⟩

/-- Claim C4: a Block constructed (in either validation mode) from a
header cast by `cast_block_header_from_rlp_decoded` carries difficulty,
timestamp and nonce equal to the integers decoded from the raw
canonical-byte fields, and a coinbase equal to the lowercase-hex text
form of the raw coinbase field. -/
theorem claim_C4_cast_header_fields (db : DB)
    (ph ur cb st tr d ts ed nn : Bytes) (txl : List (List Bytes))
    (uncles : List Item) (validate : Bool) (blk : Block)
    (hok : Block.init db
      (cast_block_header_from_rlp_decoded ph ur cb st tr d ts ed nn)
      txl uncles validate = Except.ok blk) :
    blk.difficulty = HVal.int (decode_int d) ∧
    blk.timestamp = HVal.int (decode_int ts) ∧
    blk.nonce = HVal.int (decode_int nn) ∧
    blk.coinbase = HVal.bytes (hexEncode cb) := by
  rw [Block.init_ok hok]
  exact ⟨rfl, rfl, rfl, rfl⟩

/-- Claim C4 witness: concrete raw header fields decode as stated. -/
theorem claim_C4_witness :
    (Block.mkRaw emptyDB
      (cast_block_header_from_rlp_decoded [170] [2] [3, 4] [] [5] [1, 0]
        [7] [8] [9]) [] []).difficulty = HVal.int 256 ∧
    (Block.mkRaw emptyDB
      (cast_block_header_from_rlp_decoded [170] [2] [3, 4] [] [5] [1, 0]
        [7] [8] [9]) [] []).timestamp = HVal.int 7 ∧
    (Block.mkRaw emptyDB
      (cast_block_header_from_rlp_decoded [170] [2] [3, 4] [] [5] [1, 0]
        [7] [8] [9]) [] []).nonce = HVal.int 9 ∧
    (Block.mkRaw emptyDB
      (cast_block_header_from_rlp_decoded [170] [2] [3, 4] [] [5] [1, 0]
        [7] [8] [9]) [] []).coinbase = HVal.bytes [48, 51, 48, 52] :=
  claim_C4_cast_header_fields emptyDB [170] [2] [3, 4] [] [5] [1, 0] [7]
    [8] [9] [] [] false _ rfl

/-- Claim C7: an address with no entry in the world-state store reads as
the default record: every raw field is empty, nonce and balance are 0,
the code is empty, and every storage slot is 0. -/
theorem claim_C7_absent_account_defaults (b : Block) (a : Bytes)
    (h : b.state.getAcct (normAddr a) = none) :
    (∀ i : Nat, b.get_index a i = []) ∧ b.get_nonce a = 0 ∧
    b.get_balance a = 0 ∧ b.get_code a = [] ∧
    (∀ k : Nat, b.get_storage_data a k = 0) := by
  have hidx : ∀ i : Nat, b.get_index a i = [] := by
    intro i
    rw [get_index_eq, acctOf, h, Option.getD_none, defaultAcct_getD]
  refine ⟨hidx, ?_, ?_, ?_, ?_⟩
  · rw [Block.get_nonce, hidx]
    rfl
  · rw [Block.get_balance, hidx]
    rfl
  · rw [Block.get_code]
    simp [hidx CODE_INDEX]
  · intro k
    rw [Block.get_storage_data, Block.get_storage, Trie.getStor]
    simp only [hidx STORAGE_INDEX]
    rw [storMapAt, if_pos rfl]
    rfl

/-- Claim C7 witness: a concrete fresh Block with an absent address. -/
theorem claim_C7_witness :
    (Block.mkRaw emptyDB genesisHeader [] []).state.getAcct (normAddr [5])
      = none ∧
    (Block.mkRaw emptyDB genesisHeader [] []).get_index [5] 2 = [] ∧
    (Block.mkRaw emptyDB genesisHeader [] []).get_nonce [5] = 0 ∧
    (Block.mkRaw emptyDB genesisHeader [] []).get_balance [5] = 0 ∧
    (Block.mkRaw emptyDB genesisHeader [] []).get_code [5] = [] ∧
    (Block.mkRaw emptyDB genesisHeader [] []).get_storage_data [5] 9 = 0 :=
  ⟨rfl,
   (claim_C7_absent_account_defaults (Block.mkRaw emptyDB genesisHeader [] []) [5] rfl).1 2,
   (claim_C7_absent_account_defaults (Block.mkRaw emptyDB genesisHeader [] []) [5] rfl).2.1,
   (claim_C7_absent_account_defaults (Block.mkRaw emptyDB genesisHeader [] []) [5] rfl).2.2.1,
   (claim_C7_absent_account_defaults (Block.mkRaw emptyDB genesisHeader [] []) [5] rfl).2.2.2.1,
   (claim_C7_absent_account_defaults (Block.mkRaw emptyDB genesisHeader [] []) [5] rfl).2.2.2.2 9⟩

/-- Claim C10: `revert` only moves the state root digest and the gas
counter; every other Block attribute — header fields, constants, the
transaction list, the uncle list, and the underlying store — is
unchanged, and `snapshot` is a pure read of the captured pair. -/
theorem claim_C10_revert_frame (b : Block) (s : Snapshot) :
    (b.revert s).number = b.number ∧ (b.revert s).reward = b.reward ∧
    (b.revert s).gaslimit = b.gaslimit ∧
    (b.revert s).prevhash = b.prevhash ∧
    (b.revert s).uncles_root = b.uncles_root ∧
    (b.revert s).coinbase = b.coinbase ∧
    (b.revert s).transactions_root = b.transactions_root ∧
    (b.revert s).difficulty = b.difficulty ∧
    (b.revert s).timestamp = b.timestamp ∧
    (b.revert s).extradata = b.extradata ∧
    (b.revert s).nonce = b.nonce ∧
    (b.revert s).transactions = b.transactions ∧
    (b.revert s).uncles = b.uncles ∧
    (b.revert s).state.db = b.state.db ∧
    (b.revert s).state.root = s.state ∧ (b.revert s).gas_consumed = s.gas ∧
    b.snapshot = { state := b.state.root, gas := b.gas_consumed } :=
  ⟨rfl, rfl, rfl, rfl, rfl, rfl, rfl, rfl, rfl, rfl, rfl, rfl, rfl, rfl,
   rfl, rfl, rfl⟩

/-- A concrete header whose roots make validated construction succeed:
raw prevhash `[170]`, matching uncle and transaction roots, blank state
root, cast to attribute form. -/
def c1rawHeader : List HVal :=
  cast_block_header_from_rlp_decoded [170] (sha3 (rlpEncode (Item.list [])))
    (List.replicate 20 0) [] (sha3 (rlpEncode (txListItem []))) [3] [7] [] [9]

/-- The validly constructed Block over that header. -/
def c1block : Block :=
  (Block.init emptyDB c1rawHeader [] [] true).toOption.getD
    (Block.mkRaw emptyDB [] [] [])

/-- Claim C1 exhibit: the Block `c1block` is validly constructed
(validation passes), yet serializing it and rebuilding from the parsed
header, transaction list and uncle list with validation disabled does
not reproduce its header.  The serializer emits a 10-field header with
the block number prepended while the constructor reads 9 positional
fields, so the constructor's attribute assignments are all shifted: the
rebuilt prevhash is the encoded block number (empty) instead of `[170]`,
which instead lands in the rebuilt uncles root — and after those
assignments the rebuild aborts outright at the line-58 debug hash (the
shifted coinbase slot holds a digest, not hex text), so the round-trip
yields no identical Block, indeed no Block at all. -/
theorem claim_C1_roundtrip_code_bug :
    (Block.init emptyDB c1rawHeader [] [] true).isOk = true ∧
    c1block.prevhash = HVal.bytes [170] ∧
    (c1block.serializeItem.bind parseFields).map
        (fun t => (Block.mkRaw emptyDB t.1 t.2.1 t.2.2).prevhash)
      = some (HVal.bytes []) ∧
    (c1block.serializeItem.bind parseFields).map
        (fun t => (Block.mkRaw emptyDB t.1 t.2.1 t.2.2).uncles_root)
      = some (HVal.bytes [170]) ∧
    roundTrip emptyDB c1block = none :=
  ⟨by rfl, by rfl, by rfl, by rfl, by rfl⟩

/-- Claim C6: writing value 0 to a storage slot removes the entry from
the storage sub-trie (it is deleted, not stored as zero), a subsequent
read of that slot returns 0, and every storage write — zero or not —
re-links the account's storage-root field to the sub-trie's resulting
root. -/
theorem claim_C6_storage_zero_deletes (b : Block)
    (h : b.state.db.wfb = true) (a : Bytes) (k : Nat) :
    alGet (storMapAt (b.set_storage_data a k 0).state.db
        ((b.set_storage_data a k 0).get_index a STORAGE_INDEX))
      (coerce_to_bytes k) = none ∧
    (b.set_storage_data a k 0).get_storage_data a k = 0 ∧
    (∀ val : Nat, (b.set_storage_data a k val).get_index a STORAGE_INDEX
        = (storTrieAfter b a k val).root) := by
  have hroot : ∀ val : Nat,
      (b.set_storage_data a k val).get_index a STORAGE_INDEX
        = (storTrieAfter b a k val).root := by
    intro val
    rw [get_index_set_storage_data h, if_pos rfl,
      getD_set_self (by rw [acctOf_len h]; decide)]
  have hstor : ∀ val : Nat,
      (b.set_storage_data a k val).state.db.storNodes
        = (storTrieAfter b a k val).db.storNodes := by
    intro val
    rw [set_storage_data_eq, set_index_storNodes]
  have hnone : alGet (storMapAt (b.set_storage_data a k 0).state.db
      ((b.set_storage_data a k 0).get_index a STORAGE_INDEX))
      (coerce_to_bytes k) = none := by
    rw [hroot 0, storMapAt_congr (hstor 0), storMapAt_storTrieAfter h,
      if_neg (fun hc => hc rfl), alGet_erase, if_pos rfl]
  refine ⟨hnone, ?_, hroot⟩
  simp only [Block.get_storage_data, Block.get_storage, Trie.getStor]
  rw [hnone]
  rfl

/-- Claim C6 witness: a concrete slot is written then zeroed. -/
theorem claim_C6_witness :
    alGet (storMapAt
        (((Block.mkRaw emptyDB genesisHeader [] []).set_storage_data
          [1] 5 77).set_storage_data [1] 5 0).state.db
        ((((Block.mkRaw emptyDB genesisHeader [] []).set_storage_data
          [1] 5 77).set_storage_data [1] 5 0).get_index [1] STORAGE_INDEX))
      (coerce_to_bytes 5) = none ∧
    (((Block.mkRaw emptyDB genesisHeader [] []).set_storage_data
        [1] 5 77).set_storage_data [1] 5 0).get_storage_data [1] 5 = 0 :=
  ⟨(claim_C6_storage_zero_deletes
      ((Block.mkRaw emptyDB genesisHeader [] []).set_storage_data [1] 5 77)
      (wfb_set_storage_data (by rfl) [1] 5 77) [1] 5).1,
   (claim_C6_storage_zero_deletes
      ((Block.mkRaw emptyDB genesisHeader [] []).set_storage_data [1] 5 77)
      (wfb_set_storage_data (by rfl) [1] 5 77) [1] 5).2.1⟩

/-- Claim C8: `set_code` stores the blob in the content-addressed store
under its digest and then links the account's code-hash field to that
digest; a subsequent `get_code` returns exactly the stored bytes, and
two addresses given identical code bytes end with the same code-hash
field value. -/
theorem claim_C8_code_content_addressing (b : Block)
    (h : b.state.db.wfb = true) (a1 a2 c : Bytes) :
    alGet (b.set_code a1 c).state.db.blobs (sha3 c) = some c ∧
    (b.set_code a1 c).get_index a1 CODE_INDEX = sha3 c ∧
    (b.set_code a1 c).get_code a1 = c ∧
    ((b.set_code a1 c).set_code a2 c).get_index a1 CODE_INDEX
      = ((b.set_code a1 c).set_code a2 c).get_index a2 CODE_INDEX := by
  have hblob : alGet (b.set_code a1 c).state.db.blobs (sha3 c) = some c := by
    rw [set_code_blobs]
    exact alGet_putBlob_self h c
  have hhash : (b.set_code a1 c).get_index a1 CODE_INDEX = sha3 c := by
    rw [get_index_set_code h, if_pos rfl,
      getD_set_self (by rw [acctOf_len h]; decide)]
  refine ⟨hblob, hhash, ?_, ?_⟩
  · rw [Block.get_code, hhash, if_neg (sha3_ne_nil c), hblob]
    rfl
  · have h1 := wfb_set_code h a1 c
    rw [get_index_set_code h1, get_index_set_code h1, if_pos rfl]
    split
    · rfl
    · rw [hhash, getD_set_self (by rw [acctOf_len h1]; decide)]

/-- Claim C8 witness: concrete code bytes on two addresses. -/
theorem claim_C8_witness :
    ((Block.mkRaw emptyDB genesisHeader [] []).set_code [7] [9, 9]).get_code
      [7] = [9, 9] ∧
    (((Block.mkRaw emptyDB genesisHeader [] []).set_code [7] [9, 9]).set_code
        [8] [9, 9]).get_index [7] CODE_INDEX
      = (((Block.mkRaw emptyDB genesisHeader [] []).set_code
          [7] [9, 9]).set_code [8] [9, 9]).get_index [8] CODE_INDEX :=
  ⟨(claim_C8_code_content_addressing (Block.mkRaw emptyDB genesisHeader [] [])
      rfl [7] [8] [9, 9]).2.2.1,
   (claim_C8_code_content_addressing (Block.mkRaw emptyDB genesisHeader [] [])
      rfl [7] [8] [9, 9]).2.2.2⟩

/-! ### Genesis lemmas -/

theorem get_balance_set_balance {b : Block} (h : b.state.db.wfb = true)
    (a : Bytes) (v : Nat) (a2 : Bytes) :
    (b.set_balance a v).get_balance a2 =
      if normAddr a2 = normAddr a then v else b.get_balance a2 := by
  rw [Block.get_balance, Block.set_balance, get_index_set_index h]
  split
  · rw [getD_set_self (by rw [acctOf_len h]; decide), decode_encode_int]
  · rfl

theorem get_nonce_set_balance {b : Block} (h : b.state.db.wfb = true)
    (a : Bytes) (v : Nat) (a2 : Bytes) :
    (b.set_balance a v).get_nonce a2 = b.get_nonce a2 := by
  rw [Block.get_nonce, Block.set_balance, get_index_set_index h]
  split
  · rename_i heq
    rw [getD_set_ne (by decide), Block.get_nonce, get_index_eq, acctOf,
      acctOf, heq]
  · rfl

theorem wfb_set_balance {b : Block} (h : b.state.db.wfb = true)
    (a : Bytes) (v : Nat) : (b.set_balance a v).state.db.wfb = true :=
  wfb_set_index h _ _ _

theorem fold_set_balance_wfb (l : List (Bytes × Nat)) : ∀ (b : Block),
    b.state.db.wfb = true →
    (l.foldl (fun b2 p => b2.set_balance p.1 p.2) b).state.db.wfb = true := by
  induction l with
  | nil => intro b hb; exact hb
  | cons p rest ih =>
    intro b hb
    exact ih _ (wfb_set_balance hb _ _)

theorem fold_set_balance_other (l : List (Bytes × Nat)) : ∀ (b : Block)
    (a : Bytes), b.state.db.wfb = true →
    (∀ q ∈ l, normAddr q.1 ≠ normAddr a) →
    (l.foldl (fun b2 p => b2.set_balance p.1 p.2) b).get_balance a
      = b.get_balance a := by
  induction l with
  | nil => intro b a hb _; rfl
  | cons p rest ih =>
    intro b a hb hne
    show (rest.foldl _ (b.set_balance p.1 p.2)).get_balance a = _
    rw [ih (b.set_balance p.1 p.2) a (wfb_set_balance hb _ _)
        (fun q hq => hne q (List.mem_cons_of_mem _ hq)),
      get_balance_set_balance hb,
      if_neg (fun hc => hne p (List.mem_cons_self p rest) hc.symm)]

theorem fold_set_balance_nonce (l : List (Bytes × Nat)) : ∀ (b : Block)
    (a : Bytes), b.state.db.wfb = true →
    (l.foldl (fun b2 p => b2.set_balance p.1 p.2) b).get_nonce a
      = b.get_nonce a := by
  induction l with
  | nil => intro b a hb; rfl
  | cons p rest ih =>
    intro b a hb
    show (rest.foldl _ (b.set_balance p.1 p.2)).get_nonce a = _
    rw [ih (b.set_balance p.1 p.2) a (wfb_set_balance hb _ _),
      get_nonce_set_balance hb]

theorem fold_set_balance_mem (l : List (Bytes × Nat)) : ∀ (b : Block),
    b.state.db.wfb = true →
    (l.map (fun p => normAddr p.1)).Nodup →
    ∀ p ∈ l, (l.foldl (fun b2 q => b2.set_balance q.1 q.2) b).get_balance p.1
      = p.2 := by
  induction l with
  | nil => intro b _ _ p hp; exact absurd hp (List.not_mem_nil p)
  | cons q rest ih =>
    intro b hb hnodup p hp
    rw [List.map_cons, List.nodup_cons] at hnodup
    rcases List.mem_cons.mp hp with hp | hp
    · subst hp
      show (rest.foldl _ (b.set_balance p.1 p.2)).get_balance p.1 = p.2
      rw [fold_set_balance_other rest (b.set_balance p.1 p.2) p.1
          (wfb_set_balance hb _ _) ?_,
        get_balance_set_balance hb, if_pos rfl]
      intro r hr hc
      exact hnodup.1 (by
        rw [← hc]
        exact List.mem_map.mpr ⟨r, hr, rfl⟩)
    · exact ih (b.set_balance q.1 q.2) (wfb_set_balance hb _ _)
        hnodup.2 p hp

/-- Claim C9: `genesis` builds the sentinel header, constructs the Block
unvalidated, and applies the allocation: every allocated address reads
back its balance and a zero nonce; constructing a Block from the same
genesis header with validation enabled fails. -/
theorem claim_C9_genesis (db : DB) (h : db.wfb = true)
    (alloc : List (Bytes × Nat))
    (hnodup : (alloc.map (fun p => normAddr p.1)).Nodup) :
    (∀ p ∈ alloc, (genesis db alloc).get_balance p.1 = p.2 ∧
      (genesis db alloc).get_nonce p.1 = 0) ∧
    (Block.init db genesisHeader [] [] true).isOk = false := by
  constructor
  · intro p hp
    constructor
    · exact fold_set_balance_mem alloc _ h hnodup p hp
    · rw [genesis, fold_set_balance_nonce alloc _ p.1 h]
      rfl
  · have hcond : HVal.bytes (sha3 (rlpEncode (txListItem [])))
        ≠ (Block.mkRaw db genesisHeader [] []).transactions_root := by
      show HVal.bytes (sha3 (rlpEncode (txListItem []))) ≠ HVal.bytes []
      intro hc
      exact sha3_ne_nil _ (HVal.bytes.inj hc)
    simp only [Block.init]
    rw [if_pos trivial, if_pos hcond]
    rfl

/-- Claim C9 witness: a concrete two-address allocation. -/
theorem claim_C9_witness :
    (genesis emptyDB [([1], 100), ([2], 50)]).get_balance [1] = 100 ∧
    (genesis emptyDB [([1], 100), ([2], 50)]).get_nonce [1] = 0 ∧
    (genesis emptyDB [([1], 100), ([2], 50)]).get_balance [2] = 50 ∧
    (Block.init emptyDB genesisHeader [] [] true).isOk = false :=
  ⟨((claim_C9_genesis emptyDB rfl [([1], 100), ([2], 50)] (by decide)).1
      ([1], 100) (by decide)).1,
   ((claim_C9_genesis emptyDB rfl [([1], 100), ([2], 50)] (by decide)).1
      ([1], 100) (by decide)).2,
   ((claim_C9_genesis emptyDB rfl [([1], 100), ([2], 50)] (by decide)).1
      ([2], 50) (by decide)).1,
   (claim_C9_genesis emptyDB rfl [([1], 100), ([2], 50)] (by decide)).2⟩

/-! ### Snapshot/revert stability -/

/-- An account record is well-anchored in the store: its code hash and
storage root are blank or resolve to stored content. -/
def acctWFb (d : DB) (acct : List Bytes) : Bool :=
  (decide (acct.getD CODE_INDEX [] = [])
    || (alGet d.blobs (acct.getD CODE_INDEX [])).isSome) &&
  (decide (acct.getD STORAGE_INDEX [] = [])
    || (alGet d.storNodes (acct.getD STORAGE_INDEX [])).isSome)

/-- A Block's committed state is well-anchored: its root is blank or
stored, and every account it contains is well-anchored. -/
def stateWFb (d : DB) (r : Bytes) : Bool :=
  (decide (r = []) || (alGet d.stateNodes r).isSome) &&
  (stateMapAt d r).all (fun p => acctWFb d p.2)

theorem stateWFb_root {d : DB} {r : Bytes} (h : stateWFb d r = true) :
    r = [] ∨ (alGet d.stateNodes r).isSome = true := by
  rw [stateWFb, Bool.and_eq_true] at h
  have h1 := h.1
  rw [Bool.or_eq_true, decide_eq_true_eq] at h1
  exact h1

theorem stateWFb_acct {d : DB} {r : Bytes} (h : stateWFb d r = true)
    {a : Bytes} {acct : List Bytes}
    (ha : alGet (stateMapAt d r) a = some acct) :
    (acct.getD CODE_INDEX [] = []
      ∨ (alGet d.blobs (acct.getD CODE_INDEX [])).isSome = true) ∧
    (acct.getD STORAGE_INDEX [] = []
      ∨ (alGet d.storNodes (acct.getD STORAGE_INDEX [])).isSome = true) := by
  rw [stateWFb, Bool.and_eq_true] at h
  have h2 := List.all_eq_true.mp h.2 _ (alGet_mem ha)
  rw [acctWFb, Bool.and_eq_true, Bool.or_eq_true, Bool.or_eq_true,
    decide_eq_true_eq, decide_eq_true_eq] at h2
  exact h2

theorem stateMapAt_ext {d d2 : DB} (he : DB.Ext d d2) {r : Bytes}
    (hr : r = [] ∨ (alGet d.stateNodes r).isSome = true) :
    stateMapAt d2 r = stateMapAt d r := by
  rcases hr with hr | hr
  · rw [hr, stateMapAt, stateMapAt, if_pos rfl, if_pos rfl]
  · rcases Option.isSome_iff_exists.mp hr with ⟨m, hm⟩
    rw [stateMapAt, stateMapAt, hm, he.state _ _ hm]

theorem storMapAt_ext {d d2 : DB} (he : DB.Ext d d2) {r : Bytes}
    (hr : r = [] ∨ (alGet d.storNodes r).isSome = true) :
    storMapAt d2 r = storMapAt d r := by
  rcases hr with hr | hr
  · rw [hr, storMapAt, storMapAt, if_pos rfl, if_pos rfl]
  · rcases Option.isSome_iff_exists.mp hr with ⟨m, hm⟩
    rw [storMapAt, storMapAt, hm, he.stor _ _ hm]

theorem ext_set_index (b : Block) (a : Bytes) (i : Nat) (v : Bytes) :
    DB.Ext b.state.db (b.set_index a i v).state.db :=
  ext_putState _ _ _

theorem ext_delta_index (b : Block) (a : Bytes) (i : Nat) (v : Int) :
    DB.Ext b.state.db (b.delta_index a i v).2.state.db := by
  simp only [Block.delta_index]
  split
  · exact DB.Ext.rfl _
  · exact ext_putState _ _ _

theorem ext_deleteStor (t : Trie) (k : Bytes) :
    DB.Ext t.db (t.deleteStor k).db := by
  rw [Trie.deleteStor]
  split
  · exact DB.Ext.rfl _
  · exact ext_putStor _ _ _

theorem ext_applyOp (b : Block) (op : Op) :
    DB.Ext b.state.db (applyOp b op).state.db := by
  cases op with
  | deltaBalance a v => exact ext_delta_index b a BALANCE_INDEX v
  | incrementNonce a => exact ext_delta_index b a NONCE_INDEX 1
  | setBalance a v => exact ext_set_index b a BALANCE_INDEX (encode_int v)
  | setCode a c =>
    exact DB.Ext.trans (ext_putBlob b.state.db (sha3 c) c)
      (ext_set_index ({ b with state := { b.state with
        db := b.state.db.putBlob (sha3 c) c } }) a CODE_INDEX (sha3 c))
  | setStorageData a k v =>
    have h1 : DB.Ext b.state.db (storTrieAfter b a k v).db := by
      rw [storTrieAfter]
      split
      · exact ext_putStor _ _ _
      · exact ext_deleteStor (b.get_storage a) (coerce_to_bytes k)
    have h2 : DB.Ext (storTrieAfter b a k v).db
        (b.set_storage_data a k v).state.db := by
      rw [set_storage_data_eq]
      exact ext_set_index ({ b with state := { b.state with
        db := (storTrieAfter b a k v).db } }) a STORAGE_INDEX
        (storTrieAfter b a k v).root
    exact h1.trans h2
  | consumeGas g => exact DB.Ext.rfl _

theorem ext_applyOps (ops : List Op) : ∀ b : Block,
    DB.Ext b.state.db (applyOps b ops).state.db := by
  induction ops with
  | nil => intro b; exact DB.Ext.rfl _
  | cons op rest ih =>
    intro b
    exact (ext_applyOp b op).trans (ih (applyOp b op))

theorem stateMapAt_nil (d : DB) : stateMapAt d [] = [] := by
  rw [stateMapAt, if_pos rfl]

theorem storMapAt_nil (d : DB) : storMapAt d [] = [] := by
  rw [storMapAt, if_pos rfl]

/-- Claim C5: with a snapshot S taken before any finite sequence of
mutating operations (balance/nonce deltas, balance, code and storage
writes, gas updates), `revert S` restores the state root digest and the
gas counter exactly, and — because the store is append-only — every
accessor observation (balance, nonce, code, storage, the account debug
record, and `snapshot` itself) is then identical to what it was
immediately after S. -/
theorem claim_C5_snapshot_revert (b : Block) (ops : List Op)
    (h : stateWFb b.state.db b.state.root = true) :
    ((applyOps b ops).revert b.snapshot).state.root = b.state.root ∧
    ((applyOps b ops).revert b.snapshot).gas_consumed = b.gas_consumed ∧
    ((applyOps b ops).revert b.snapshot).snapshot = b.snapshot ∧
    (∀ a : Bytes, ((applyOps b ops).revert b.snapshot).get_balance a
      = b.get_balance a) ∧
    (∀ a : Bytes, ((applyOps b ops).revert b.snapshot).get_nonce a
      = b.get_nonce a) ∧
    (∀ a : Bytes, ((applyOps b ops).revert b.snapshot).get_code a
      = b.get_code a) ∧
    (∀ (a : Bytes) (k : Nat),
      ((applyOps b ops).revert b.snapshot).get_storage_data a k
        = b.get_storage_data a k) ∧
    (∀ a : Bytes, ((applyOps b ops).revert b.snapshot).account_to_dict a
      = b.account_to_dict a) := by
  have he : DB.Ext b.state.db
      ((applyOps b ops).revert b.snapshot).state.db := ext_applyOps ops b
  have hmap : stateMapAt ((applyOps b ops).revert b.snapshot).state.db
      b.state.root = stateMapAt b.state.db b.state.root :=
    stateMapAt_ext he (stateWFb_root h)
  have hacct : ∀ a : Bytes,
      ((applyOps b ops).revert b.snapshot).state.getAcct a
        = b.state.getAcct a := by
    intro a
    show alGet (stateMapAt ((applyOps b ops).revert b.snapshot).state.db
      b.state.root) a = alGet (stateMapAt b.state.db b.state.root) a
    rw [hmap]
  have hidx : ∀ (a : Bytes) (i : Nat),
      ((applyOps b ops).revert b.snapshot).get_index a i
        = b.get_index a i := by
    intro a i
    simp only [Block.get_index]
    rw [hacct]
  have hblob : ∀ a : Bytes,
      ((b.state.getAcct (normAddr a)).getD defaultAcct).getD CODE_INDEX []
          ≠ [] →
      alGet ((applyOps b ops).revert b.snapshot).state.db.blobs
        (((b.state.getAcct (normAddr a)).getD defaultAcct).getD
          CODE_INDEX [])
      = alGet b.state.db.blobs
        (((b.state.getAcct (normAddr a)).getD defaultAcct).getD
          CODE_INDEX []) := by
    intro a hch
    cases hg : b.state.getAcct (normAddr a) with
    | none =>
      exfalso
      apply hch
      rw [hg, Option.getD_none, defaultAcct_getD]
    | some acct =>
      rw [hg, Option.getD_some] at hch
      rw [Option.getD_some]
      rcases (stateWFb_acct h hg).1 with h0 | hsome
      · exact absurd h0 hch
      · rcases Option.isSome_iff_exists.mp hsome with ⟨v, hv⟩
        rw [he.blob _ _ hv, hv]
  have hstorm : ∀ a : Bytes,
      storMapAt ((applyOps b ops).revert b.snapshot).state.db
        (((b.state.getAcct (normAddr a)).getD defaultAcct).getD
          STORAGE_INDEX [])
      = storMapAt b.state.db
        (((b.state.getAcct (normAddr a)).getD defaultAcct).getD
          STORAGE_INDEX []) := by
    intro a
    cases hg : b.state.getAcct (normAddr a) with
    | none =>
      rw [Option.getD_none, defaultAcct_getD, storMapAt_nil, storMapAt_nil]
    | some acct =>
      rw [Option.getD_some]
      rcases (stateWFb_acct h hg).2 with h0 | hsome
      · rw [h0, storMapAt_nil, storMapAt_nil]
      · exact storMapAt_ext he (Or.inr hsome)
  refine ⟨rfl, rfl, rfl, ?_, ?_, ?_, ?_, ?_⟩
  · intro a
    rw [Block.get_balance, Block.get_balance, hidx]
  · intro a
    rw [Block.get_nonce, Block.get_nonce, hidx]
  · intro a
    simp only [Block.get_code, Block.get_index]
    rw [hacct]
    by_cases hch : ((b.state.getAcct (normAddr a)).getD defaultAcct).getD
        CODE_INDEX [] = []
    · rw [if_pos hch, if_pos hch]
    · rw [if_neg hch, if_neg hch, hblob a hch]
  · intro a k
    simp only [Block.get_storage_data, Block.get_storage, Trie.getStor,
      Block.get_index]
    rw [hacct, hstorm]
  · intro a
    simp only [Block.account_to_dict]
    rw [hacct, hstorm]
    by_cases hch : ((b.state.getAcct (normAddr a)).getD defaultAcct).getD
        CODE_INDEX [] = []
    · rw [if_pos hch, if_pos hch]
    · rw [if_neg hch, if_neg hch, hblob a hch]

/-- A concrete mixed operation sequence for the snapshot/revert law. -/
def c5ops : List Op :=
  [Op.deltaBalance [1] 3, Op.setStorageData [1] 2 9, Op.setCode [1] [7, 7],
   Op.consumeGas 11, Op.setBalance [2] 4]

/-- Claim C5 witness: a concrete genesis Block, snapshot, five mixed
mutations, revert — every sampled observation is restored. -/
theorem claim_C5_witness :
    stateWFb (genesis emptyDB [([1], 5)]).state.db
      (genesis emptyDB [([1], 5)]).state.root = true ∧
    ((applyOps (genesis emptyDB [([1], 5)]) c5ops).revert
        (genesis emptyDB [([1], 5)]).snapshot).snapshot
      = (genesis emptyDB [([1], 5)]).snapshot ∧
    ((applyOps (genesis emptyDB [([1], 5)]) c5ops).revert
        (genesis emptyDB [([1], 5)]).snapshot).get_balance [1]
      = (genesis emptyDB [([1], 5)]).get_balance [1] ∧
    ((applyOps (genesis emptyDB [([1], 5)]) c5ops).revert
        (genesis emptyDB [([1], 5)]).snapshot).get_storage_data [1] 2
      = (genesis emptyDB [([1], 5)]).get_storage_data [1] 2 ∧
    ((applyOps (genesis emptyDB [([1], 5)]) c5ops).revert
        (genesis emptyDB [([1], 5)]).snapshot).get_code [1]
      = (genesis emptyDB [([1], 5)]).get_code [1] ∧
    ((applyOps (genesis emptyDB [([1], 5)]) c5ops).revert
        (genesis emptyDB [([1], 5)]).snapshot).account_to_dict [1]
      = (genesis emptyDB [([1], 5)]).account_to_dict [1] :=
  ⟨by decide,
   (claim_C5_snapshot_revert (genesis emptyDB [([1], 5)]) c5ops
      (by decide)).2.2.1,
   (claim_C5_snapshot_revert (genesis emptyDB [([1], 5)]) c5ops
      (by decide)).2.2.2.1 [1],
   (claim_C5_snapshot_revert (genesis emptyDB [([1], 5)]) c5ops
      (by decide)).2.2.2.2.2.2.1 [1] 2,
   (claim_C5_snapshot_revert (genesis emptyDB [([1], 5)]) c5ops
      (by decide)).2.2.2.2.2.1 [1],
   (claim_C5_snapshot_revert (genesis emptyDB [([1], 5)]) c5ops
      (by decide)).2.2.2.2.2.2.2 [1]⟩

end Pyethereum
